import Mathlib

/-!
Verification of the hybrid HDC pipeline implemented in
src/research/learned_hdc/hybrid_hdc_combined.py.

Modelling conventions for the shallow embedding:

* Python floats are modelled as rationals (exact arithmetic).
* The transcendental numpy primitives (np.sqrt via np.linalg.norm, np.exp,
  np.log) are abstracted as an explicit record of rational functions
  (`FloatOps`); theorems that need properties of these primitives state
  them as hypotheses, and witnesses instantiate them with concrete
  computable functions (for the square root, `ratSqrt`, which is exact on
  rational squares).
* The numpy `RandomState` is abstracted as a state-threaded record of
  sampling operations (`RngOps`); every consumption of randomness in the
  source is mirrored by threading this state in source order.
* Sequences are lists of characters; numpy vectors and matrices are lists
  (of lists) of rationals.
-/

namespace HybridHDC

/-- Record of the numeric primitives the Python code takes from numpy:
square root (used by np.linalg.norm and the Adam denominator), exp and log. -/
structure FloatOps where
  sqrt : ℚ → ℚ
  exp : ℚ → ℚ
  log : ℚ → ℚ

/-- Record of the sampling operations the Python code takes from
np.random.RandomState, threaded through an abstract state type.
`permutation s n` models rng.permutation(n); `shuffle` models rng.shuffle;
`random` models rng.random(); `choice` models rng.choice(bases);
`randn s r c` models rng.randn(r, c). -/
structure RngOps (σ : Type) where
  permutation : σ → ℕ → List ℕ × σ
  shuffle : σ → List ℕ → List ℕ × σ
  random : σ → ℚ × σ
  choice : σ → Char × σ
  randn : σ → ℕ → ℕ → List (List ℚ) × σ

/-- Floor square root on naturals, by incremental search; used to build the
exact rational square root `ratSqrt` with which witnesses instantiate
`FloatOps.sqrt`. -/
def natSqrt : ℕ → ℕ
  | 0 => 0
  | n + 1 => if (natSqrt n + 1) * (natSqrt n + 1) ≤ n + 1 then natSqrt n + 1 else natSqrt n

theorem natSqrt_spec (n : ℕ) :
    natSqrt n * natSqrt n ≤ n ∧ n < (natSqrt n + 1) * (natSqrt n + 1) := by
  induction n with
  | zero => simp [natSqrt]
  | succ n ih =>
    rcases ih with ⟨h1, h2⟩
    by_cases h : (natSqrt n + 1) * (natSqrt n + 1) ≤ n + 1
    · have e : natSqrt (n + 1) = natSqrt n + 1 := by simp [natSqrt, h]
      rw [e]
      exact ⟨h, by nlinarith⟩
    · have e : natSqrt (n + 1) = natSqrt n := by simp [natSqrt, h]
      rw [e]
      exact ⟨Nat.le_succ_of_le h1, Nat.lt_of_not_le h⟩

theorem natSqrt_unique {n r : ℕ} (h1 : r * r ≤ n) (h2 : n < (r + 1) * (r + 1)) :
    natSqrt n = r := by
  rcases natSqrt_spec n with ⟨a, b⟩
  rcases Nat.lt_trichotomy (natSqrt n) r with h | h | h
  · exfalso
    have hle : natSqrt n + 1 ≤ r := h
    nlinarith
  · exact h
  · exfalso
    have hle : r + 1 ≤ natSqrt n := h
    nlinarith

theorem natSqrt_mul_self (a : ℕ) : natSqrt (a * a) = a :=
  natSqrt_unique (le_refl _) (by nlinarith)

/-- Exact rational square root: on a square rational it returns the exact
(nonnegative) root; elsewhere some rational. Witnesses use it as the
concrete instance of the abstract float sqrt. -/
def ratSqrt (q : ℚ) : ℚ := (natSqrt q.num.natAbs : ℚ) / (natSqrt q.den : ℚ)

theorem abs_rat_eq_natAbs_div_den (x : ℚ) : |x| = (x.num.natAbs : ℚ) / (x.den : ℚ) := by
  conv_lhs => rw [← Rat.num_div_den x]
  rw [abs_div]
  congr 1
  · rw [Int.cast_natAbs]
    exact Int.cast_abs.symm
  · exact abs_of_pos (by exact_mod_cast x.pos)

theorem ratSqrt_mul_self (x : ℚ) : ratSqrt (x * x) = |x| := by
  unfold ratSqrt
  rw [Rat.mul_self_num, Rat.mul_self_den, Int.natAbs_mul, natSqrt_mul_self,
    natSqrt_mul_self, abs_rat_eq_natAbs_div_den]

theorem ratSqrt_sq (x : ℚ) : ratSqrt (x ^ 2) = |x| := by
  rw [sq]
  exact ratSqrt_mul_self x

/-! Vector and matrix arithmetic over rationals, mirroring the numpy
operations used by the source (elementwise arithmetic, dot products,
matrix products, broadcast bias addition, column sums). -/

def vecAdd (a b : List ℚ) : List ℚ := List.zipWith (fun x y => x + y) a b

def vecSub (a b : List ℚ) : List ℚ := List.zipWith (fun x y => x - y) a b

def vecMul (a b : List ℚ) : List ℚ := List.zipWith (fun x y => x * y) a b

def vecScale (c : ℚ) (v : List ℚ) : List ℚ := v.map (fun x => c * x)

def dotProd (a b : List ℚ) : ℚ := (vecMul a b).sum

def sumSq (v : List ℚ) : ℚ := (v.map (fun x => x * x)).sum

def zeros (n : ℕ) : List ℚ := List.replicate n 0

def zerosM (r c : ℕ) : List (List ℚ) := List.replicate r (zeros c)

def vecTotal (dim : ℕ) (vs : List (List ℚ)) : List ℚ := vs.foldl vecAdd (zeros dim)

/-- Elementwise mean of a list of vectors, numpy mean(axis=0). -/
def meanVecs (dim : ℕ) (vs : List (List ℚ)) : List ℚ :=
  (vecTotal dim vs).map (fun x => x / (vs.length : ℚ))

def matAdd (a b : List (List ℚ)) : List (List ℚ) := List.zipWith vecAdd a b

def matScale (c : ℚ) (a : List (List ℚ)) : List (List ℚ) := a.map (vecScale c)

def matMul (a b : List (List ℚ)) : List (List ℚ) :=
  a.map (fun r => b.transpose.map (fun col => dotProd r col))

/-- Broadcast addition of a row vector to every row of a matrix, numpy X + b. -/
def addRowVec (a : List (List ℚ)) (b : List ℚ) : List (List ℚ) := a.map (fun r => vecAdd r b)

def colSum (w : ℕ) (a : List (List ℚ)) : List ℚ := a.foldl vecAdd (zeros w)

def sumSqM (a : List (List ℚ)) : ℚ := (a.map sumSq).sum

/-- Elementwise ReLU on a matrix, np.maximum(0, x). -/
def reluM (a : List (List ℚ)) : List (List ℚ) := a.map (fun r => r.map (fun x => max 0 x))

/-- np.clip(x, lo, hi). -/
def clip (x lo hi : ℚ) : ℚ := if x < lo then lo else if hi < x then hi else x

/-- Numeric literal 1e-10 used by the source in softmax and InfoNCE denominators. -/
def eps10 : ℚ := 1 / 10000000000

/-- Numeric literal 1e-8, the Adam epsilon used throughout the source. -/
def epsAdam : ℚ := 1 / 100000000

/-- Index of the first maximal entry of a row, np.argmax (0 on an empty row). -/
def argmax (l : List ℚ) : ℕ :=
  match l with
  | [] => 0
  | x :: xs =>
    (xs.foldl (fun p y =>
      if y > p.2.2 then (p.1 + 1, p.1 + 1, y) else (p.1 + 1, p.2.1, p.2.2))
      ((0 : ℕ), (0 : ℕ), x)).2.1

/-- The softmax helper of the source applied to one row:
exp(x - max(x)) / (sum + 1e-10). -/
def softmaxRow (ops : FloatOps) (x : List ℚ) : List ℚ :=
  let mx := x.foldl max (x.headD 0)
  let exp_x := x.map (fun v => ops.exp (v - mx))
  exp_x.map (fun v => v / (exp_x.sum + eps10))

/-- The cosine_similarity function of the source: 0 when either norm is 0,
else the normalized dot product.  The Euclidean norm is sqrt of the sum of
squares. -/
def cosine_similarity (ops : FloatOps) (a b : List ℚ) : ℚ :=
  let norm_a := ops.sqrt (sumSq a)
  let norm_b := ops.sqrt (sumSq b)
  if norm_a = 0 ∨ norm_b = 0 then 0 else dotProd a b / (norm_a * norm_b)

/-! The k-mer vocabulary (generate_kmers and the kmer -> index dictionary). -/

def bases : List Char := ['A', 'C', 'G', 'T']

/-- generate_kmers of the source: recursive concatenation with base case
k = 1.  The source diverges for k = 0 (never called there); we return the
empty list in that unreachable case. -/
def generate_kmers : ℕ → List (List Char)
  | 0 => []
  | 1 => bases.map (fun b => [b])
  | k + 2 => (bases.map (fun b => (generate_kmers (k + 1)).map (fun s => b :: s))).flatten

/-- Lookup in the kmer_to_idx dictionary built in HybridHDCModel.__init__:
position of the k-mer in generate_kmers k, none when absent. -/
def kmer_to_idx (k : ℕ) (w : List Char) : Option ℕ :=
  if w ∈ generate_kmers k then
    some (@List.indexOf (List Char) instBEqOfDecidableEq w (generate_kmers k))
  else none

/-- Spec-side validity of a k-mer: correct length and characters among the
four bases. -/
def isValidKmer (k : ℕ) (w : List Char) : Bool :=
  w.length == k && w.all (fun c => c ∈ bases)

theorem generate_kmers_length (k : ℕ) (hk : 1 ≤ k) :
    (generate_kmers k).length = 4 ^ k := by
  induction k with
  | zero => omega
  | succ k ih =>
    match k, ih with
    | 0, _ => simp [generate_kmers, bases]
    | k + 1, ih =>
      have h := ih (by omega)
      simp only [generate_kmers, List.length_flatten, List.map_map]
      simp [bases, h, pow_succ]
      ring

theorem mem_generate_kmers (k : ℕ) (w : List Char) :
    w ∈ generate_kmers (k + 1) ↔ w.length = k + 1 ∧ ∀ c ∈ w, c ∈ bases := by
  induction k generalizing w with
  | zero =>
    constructor
    · intro h
      simp only [generate_kmers, bases, List.map_cons, List.map_nil, List.mem_cons,
        List.not_mem_nil, or_false] at h
      rcases h with rfl | rfl | rfl | rfl <;> simp [bases]
    · rintro ⟨h1, h2⟩
      match w, h1 with
      | [c], _ =>
        have hc := h2 c (by simp)
        fin_cases hc <;> decide
  | succ k ih =>
    constructor
    · intro h
      simp only [generate_kmers, List.mem_flatten, List.mem_map] at h
      rcases h with ⟨l, ⟨b, hb, rfl⟩, hw⟩
      rcases List.mem_map.mp hw with ⟨s, hs, rfl⟩
      rcases (ih s).mp hs with ⟨hl, hc⟩
      refine ⟨by simp [hl], ?_⟩
      intro c hc2
      rcases List.mem_cons.mp hc2 with rfl | hc3
      · exact hb
      · exact hc c hc3
    · rintro ⟨h1, h2⟩
      match w, h1 with
      | b :: s, h1 =>
        have hs : s ∈ generate_kmers (k + 1) := by
          refine (ih s).mpr ⟨by simpa using h1, ?_⟩
          intro c hc
          exact h2 c (List.mem_cons_of_mem _ hc)
        simp only [generate_kmers, List.mem_flatten, List.mem_map]
        refine ⟨(generate_kmers (k + 1)).map (fun s => b :: s), ⟨b, h2 b (by simp), rfl⟩, ?_⟩
        exact List.mem_map.mpr ⟨s, hs, rfl⟩

theorem generate_kmers_nodup (k : ℕ) (hk : 1 ≤ k) : (generate_kmers k).Nodup := by
  induction k with
  | zero => omega
  | succ k ih =>
    match k, ih with
    | 0, _ => decide
    | k + 1, ih =>
      have h := ih (by omega)
      simp only [generate_kmers]
      rw [List.nodup_flatten]
      constructor
      · intro l hl
        rcases List.mem_map.mp hl with ⟨b, _, rfl⟩
        exact h.map (fun x y hxy => by injection hxy)
      · have hinj : ∀ b c : Char, b ≠ c →
            List.Disjoint ((generate_kmers (k + 1)).map (fun s => b :: s))
              ((generate_kmers (k + 1)).map (fun s => c :: s)) := by
          intro b c hbc x hx hy
          rcases List.mem_map.mp hx with ⟨s, _, rfl⟩
          rcases List.mem_map.mp hy with ⟨t, _, ht⟩
          rw [List.cons.injEq] at ht
          exact hbc ht.1.symm
        have hb : bases.Pairwise (fun a b => a ≠ b) := by decide
        exact hb.map _ (fun a b hab => hinj a b hab)

theorem mem_generate_kmers_iff_valid (k : ℕ) (hk : 1 ≤ k) (w : List Char) :
    w ∈ generate_kmers k ↔ isValidKmer k w = true := by
  match k, hk with
  | k + 1, _ =>
    rw [mem_generate_kmers]
    simp [isValidKmer, List.all_eq_true]

theorem kmer_to_idx_isSome_iff (k : ℕ) (hk : 1 ≤ k) (w : List Char) :
    (kmer_to_idx k w).isSome = true ↔ isValidKmer k w = true := by
  rw [← mem_generate_kmers_iff_valid k hk]
  unfold kmer_to_idx
  by_cases h : w ∈ generate_kmers k <;> simp [h]

/-- C8: for every k >= 1, generate_kmers k deterministically produces exactly
4^k pairwise-distinct valid k-mers over the four bases, and the index map
satisfies the round trip: every valid k-mer has a unique index below 4^k at
which generate_kmers k holds exactly that k-mer. -/
theorem c8_kmer_vocabulary (k : ℕ) (hk : 1 ≤ k) :
    (generate_kmers k).length = 4 ^ k ∧
    (generate_kmers k).Nodup ∧
    (∀ w ∈ generate_kmers k, isValidKmer k w = true) ∧
    (∀ w, isValidKmer k w = true →
      ∃ i, kmer_to_idx k w = some i ∧ i < 4 ^ k ∧ (generate_kmers k).getD i [] = w) ∧
    (∀ w1 w2, isValidKmer k w1 = true → isValidKmer k w2 = true →
      kmer_to_idx k w1 = kmer_to_idx k w2 → w1 = w2) := by
  have hlen := generate_kmers_length k hk
  have hnd := generate_kmers_nodup k hk
  have hval := fun w => mem_generate_kmers_iff_valid k hk w
  have hget : ∀ w, isValidKmer k w = true →
      ∃ i, kmer_to_idx k w = some i ∧ i < 4 ^ k ∧ (generate_kmers k).getD i [] = w := by
    intro w hw
    have hmem : w ∈ generate_kmers k := (hval w).mpr hw
    have hidx : @List.indexOf (List Char) instBEqOfDecidableEq w (generate_kmers k)
        < (generate_kmers k).length :=
      List.indexOf_lt_length.mpr hmem
    refine ⟨@List.indexOf (List Char) instBEqOfDecidableEq w (generate_kmers k),
      by simp [kmer_to_idx, hmem], ?_, ?_⟩
    · rw [← hlen]
      exact hidx
    · rw [List.getD_eq_get _ _ hidx]
      exact List.indexOf_get hidx
  refine ⟨hlen, hnd, fun w hw => (hval w).mp hw, hget, ?_⟩
  intro w1 w2 h1 h2 heq
  rcases hget w1 h1 with ⟨i, e1, _, g1⟩
  rcases hget w2 h2 with ⟨j, e2, _, g2⟩
  rw [e1, e2] at heq
  injection heq with hij
  subst hij
  rw [← g1]
  exact g2

theorem c8_kmer_vocabulary_witness :
    1 ≤ 2 ∧
    ((generate_kmers 2).length = 4 ^ 2 ∧
    (generate_kmers 2).Nodup ∧
    (∀ w ∈ generate_kmers 2, isValidKmer 2 w = true) ∧
    (∀ w, isValidKmer 2 w = true →
      ∃ i, kmer_to_idx 2 w = some i ∧ i < 4 ^ 2 ∧ (generate_kmers 2).getD i [] = w) ∧
    (∀ w1 w2, isValidKmer 2 w1 = true → isValidKmer 2 w2 = true →
      kmer_to_idx 2 w1 = kmer_to_idx 2 w2 → w1 = w2)) :=
  ⟨by decide, c8_kmer_vocabulary 2 (by decide)⟩

/-! Generic list helpers used to relate the source's index-collection loops
to spec-side window filtering. -/

theorem filterMap_eq_filter_map {α β : Type} (f : α → Option β) (p : α → Bool) (d : β)
    (h : ∀ x, (f x).isSome = true ↔ p x = true) (l : List α) :
    l.filterMap f = (l.filter p).map (fun x => (f x).getD d) := by
  induction l with
  | nil => rfl
  | cons a l ih =>
    by_cases ha : p a = true
    · rcases Option.isSome_iff_exists.mp ((h a).mpr ha) with ⟨b, hb⟩
      simp [List.filterMap_cons, List.filter_cons, ha, hb, ih]
    · have hn : f a = none := by
        cases hf : f a with
        | none => rfl
        | some b =>
          exfalso
          exact ha ((h a).mp (by simp [hf]))
      simp [List.filterMap_cons, List.filter_cons, ha, hn, ih]

theorem zipWith_zeros_left (f : ℚ → ℚ → ℚ) (g : List ℚ) :
    List.zipWith f (zeros g.length) g = g.map (fun x => f 0 x) := by
  induction g with
  | nil => rfl
  | cons a l ih => simpa [zeros, List.replicate_succ] using ih

theorem zipWith_self_eq_map {α β : Type} (f : α → α → β) (l : List α) :
    List.zipWith f l l = l.map (fun x => f x x) := by
  induction l with
  | nil => rfl
  | cons a l ih => simp [ih]

theorem zipWith_congr_fun {α β γ : Type} {f g : α → β → γ} (l1 : List α) (l2 : List β)
    (h : ∀ a b, f a b = g a b) : List.zipWith f l1 l2 = List.zipWith g l1 l2 := by
  have he : f = g := funext (fun a => funext (h a))
  rw [he]

/-! The HybridConfig dataclass (defaults as in the source) and the Adam
optimizer. -/

structure HybridConfig where
  dim : ℕ := 1000
  kmer_length : ℕ := 6
  num_classes : ℕ := 2
  contrastive_lr : ℚ := 1 / 100
  contrastive_epochs : ℕ := 20
  temperature : ℚ := 1 / 10
  num_negatives : ℕ := 8
  finetune_lr : ℚ := 1 / 1000
  finetune_epochs : ℕ := 50
  l2_reg : ℚ := 1 / 1000
  mlp_hidden : ℕ := 256
  patience : ℕ := 5
  min_delta : ℚ := 1 / 1000

/-- The AdamOptimizer class of the source for a vector-shaped parameter:
state (m, v, t) plus hyperparameters. -/
structure AdamOptimizer where
  lr : ℚ
  beta1 : ℚ
  beta2 : ℚ
  eps : ℚ
  m : List ℚ
  v : List ℚ
  t : ℕ

/-- AdamOptimizer.__init__ with the source's default betas and eps:
zero-initialized moments and step counter. -/
def AdamOptimizer.init (n : ℕ) (lr : ℚ) : AdamOptimizer :=
  { lr := lr, beta1 := 9 / 10, beta2 := 999 / 1000, eps := epsAdam,
    m := zeros n, v := zeros n, t := 0 }

/-- AdamOptimizer.update: increments t, updates biased moments, corrects the
bias and applies param -= lr * m_hat / (sqrt(v_hat) + eps).  Returns the new
optimizer state and the updated parameter (the source mutates and returns). -/
def AdamOptimizer.update (ops : FloatOps) (o : AdamOptimizer) (param grad : List ℚ) :
    AdamOptimizer × List ℚ :=
  let t := o.t + 1
  let m := List.zipWith (fun mi gi => o.beta1 * mi + (1 - o.beta1) * gi) o.m grad
  let v := List.zipWith (fun vi gi => o.beta2 * vi + (1 - o.beta2) * gi ^ 2) o.v grad
  let m_hat := m.map (fun x => x / (1 - o.beta1 ^ t))
  let v_hat := v.map (fun x => x / (1 - o.beta2 ^ t))
  let p2 := List.zipWith (fun pi s => pi - o.lr * s) param
    (List.zipWith (fun mh vh => mh / (ops.sqrt vh + o.eps)) m_hat v_hat)
  ({ o with m := m, v := v, t := t }, p2)

/-- The AdamOptimizer class instantiated at a matrix-shaped parameter
(numpy broadcasts the same elementwise rule over the extra axis). -/
structure AdamOptimizerM where
  lr : ℚ
  beta1 : ℚ
  beta2 : ℚ
  eps : ℚ
  m : List (List ℚ)
  v : List (List ℚ)
  t : ℕ

def AdamOptimizerM.init (r c : ℕ) (lr : ℚ) : AdamOptimizerM :=
  { lr := lr, beta1 := 9 / 10, beta2 := 999 / 1000, eps := epsAdam,
    m := zerosM r c, v := zerosM r c, t := 0 }

def AdamOptimizerM.update (ops : FloatOps) (o : AdamOptimizerM)
    (param grad : List (List ℚ)) : AdamOptimizerM × List (List ℚ) :=
  let t := o.t + 1
  let m := List.zipWith (List.zipWith (fun mi gi => o.beta1 * mi + (1 - o.beta1) * gi)) o.m grad
  let v := List.zipWith (List.zipWith (fun vi gi => o.beta2 * vi + (1 - o.beta2) * gi ^ 2)) o.v grad
  let m_hat := m.map (fun r => r.map (fun x => x / (1 - o.beta1 ^ t)))
  let v_hat := v.map (fun r => r.map (fun x => x / (1 - o.beta2 ^ t)))
  let p2 := List.zipWith (fun pr sr => List.zipWith (fun pi s => pi - o.lr * s) pr sr) param
    (List.zipWith (List.zipWith (fun mh vh => mh / (ops.sqrt vh + o.eps))) m_hat v_hat)
  ({ o with m := m, v := v, t := t }, p2)

/-- C2: AdamOptimizer.update follows the stated rule, and a single update
from all-zero state (t=0, m=0, v=0) moves each parameter entry by exactly
lr * g / (|g| + eps). -/
theorem c2_adam_first_update (ops : FloatOps) (o : AdamOptimizer) (param grad : List ℚ)
    (hsq : ∀ x : ℚ, ops.sqrt (x ^ 2) = |x|)
    (ht : o.t = 0) (hm : o.m = zeros grad.length) (hv : o.v = zeros grad.length)
    (hb1 : o.beta1 ≠ 1) (hb2 : o.beta2 ≠ 1) :
    (AdamOptimizer.update ops o param grad).2 =
      List.zipWith (fun pi gi => pi - o.lr * gi / (|gi| + o.eps)) param grad ∧
    (AdamOptimizer.update ops o param grad).1.t = 1 ∧
    (AdamOptimizer.update ops o param grad).1.m = grad.map (fun gi => (1 - o.beta1) * gi) ∧
    (AdamOptimizer.update ops o param grad).1.v = grad.map (fun gi => (1 - o.beta2) * gi ^ 2) := by
  have hb1z : (1 : ℚ) - o.beta1 ≠ 0 := sub_ne_zero_of_ne (Ne.symm hb1)
  have hb2z : (1 : ℚ) - o.beta2 ≠ 0 := sub_ne_zero_of_ne (Ne.symm hb2)
  have hmm : List.zipWith (fun mi gi => o.beta1 * mi + (1 - o.beta1) * gi) o.m grad
      = grad.map (fun gi => (1 - o.beta1) * gi) := by
    rw [hm, zipWith_zeros_left]
    simp
  have hvv : List.zipWith (fun vi gi => o.beta2 * vi + (1 - o.beta2) * gi ^ 2) o.v grad
      = grad.map (fun gi => (1 - o.beta2) * gi ^ 2) := by
    rw [hv, zipWith_zeros_left]
    simp
  refine ⟨?_, by simp [AdamOptimizer.update, ht], by simp [AdamOptimizer.update, hmm],
    by simp [AdamOptimizer.update, hvv]⟩
  show List.zipWith _ param _ = _
  rw [hmm, hvv, ht]
  simp only [List.map_map, zero_add, pow_one]
  rw [List.zipWith_map_right, List.zipWith_map_left, zipWith_self_eq_map, List.zipWith_map_right]
  apply zipWith_congr_fun
  intro pi gi
  simp only [Function.comp_apply, Function.comp]
  rw [mul_div_cancel_left₀ _ hb1z, mul_div_cancel_left₀ _ hb2z, hsq, mul_div_assoc]

/-- Concrete float operations for witnesses: exact rational square root and
simple computable stand-ins for exp and log. -/
def fopsRat : FloatOps :=
  { sqrt := ratSqrt, exp := fun x => 1 + x, log := fun x => x - 1 }

def adamW2 : AdamOptimizer := AdamOptimizer.init 2 (1 / 1000)

theorem c2_adam_first_update_witness :
    ((∀ x : ℚ, fopsRat.sqrt (x ^ 2) = |x|) ∧ adamW2.t = 0 ∧
      adamW2.m = zeros ([(1 : ℚ), -2].length) ∧ adamW2.v = zeros ([(1 : ℚ), -2].length) ∧
      adamW2.beta1 ≠ 1 ∧ adamW2.beta2 ≠ 1) ∧
    (AdamOptimizer.update fopsRat adamW2 [0, 0] [1, -2]).2 =
      List.zipWith (fun pi gi => pi - adamW2.lr * gi / (|gi| + adamW2.eps)) [0, 0] [1, -2] := by
  refine ⟨⟨ratSqrt_sq, rfl, rfl, rfl, by norm_num [adamW2, AdamOptimizer.init],
    by norm_num [adamW2, AdamOptimizer.init]⟩, ?_⟩
  exact (c2_adam_first_update fopsRat adamW2 [0, 0] [1, -2] ratSqrt_sq rfl rfl rfl
    (by norm_num [adamW2, AdamOptimizer.init]) (by norm_num [adamW2, AdamOptimizer.init])).1

/-! The HybridHDCModel state.  Classifier weights and their optimizers are
absent (None) until finetune initializes them. -/

structure Model (σ : Type) where
  config : HybridConfig
  rng : σ
  embeddings : List (List ℚ)
  W1 : Option (List (List ℚ))
  b1 : Option (List ℚ)
  W2 : Option (List (List ℚ))
  b2 : Option (List ℚ)
  opt_W1 : Option AdamOptimizerM
  opt_b1 : Option AdamOptimizer
  opt_W2 : Option AdamOptimizerM
  opt_b2 : Option AdamOptimizer
  embed_m : List (List ℚ)
  embed_v : List (List ℚ)
  embed_t : ℕ
  is_pretrained : Bool
  is_finetuned : Bool

/-- One window of the index-collection loops: sequence[i:i+k].upper(). -/
def upperWindow (s : List Char) (i k : ℕ) : List Char :=
  ((s.drop i).take k).map Char.toUpper

/-- The index-collection loop shared by encode, _contrastive_step and
_finetune_step: for i in range(len(s) - k + 1), look the uppercased window
up in kmer_to_idx and keep the found indices in order. -/
def validKmerIndices (k : ℕ) (s : List Char) : List ℕ :=
  (List.range (s.length + 1 - k)).filterMap (fun i => kmer_to_idx k (upperWindow s i k))

/-- HybridHDCModel.encode: zero vector when the sequence is shorter than k
or no window is a valid k-mer; otherwise the mean of the referenced
embedding rows, divided by its Euclidean norm when normalization is
requested and the norm is positive. -/
def Model.encode {σ : Type} (ops : FloatOps) (m : Model σ) (sequence : List Char)
    (normalize : Bool) : List ℚ :=
  let k := m.config.kmer_length
  if sequence.length < k then zeros m.config.dim
  else
    let indices := validKmerIndices k sequence
    if indices = [] then zeros m.config.dim
    else
      let vectors := indices.map (fun i => m.embeddings.getD i [])
      let encoding := meanVecs m.config.dim vectors
      if normalize then
        let norm := ops.sqrt (sumSq encoding)
        if 0 < norm then encoding.map (fun x => x / norm) else encoding
      else encoding

def Model.encode_batch {σ : Type} (ops : FloatOps) (m : Model σ)
    (sequences : List (List Char)) (normalize : Bool) : List (List ℚ) :=
  sequences.map (fun s => m.encode ops s normalize)

/-- Spec-side view for C1: the uppercased windows of the sequence that are
valid k-mers, in order. -/
def specValidWindows (k : ℕ) (s : List Char) : List (List Char) :=
  ((List.range (s.length + 1 - k)).map (fun i => upperWindow s i k)).filter
    (fun w => isValidKmer k w)

/-- Index of a valid k-mer window (0 as irrelevant fallback for invalid ones). -/
def windowIdx (k : ℕ) (w : List Char) : ℕ := (kmer_to_idx k w).getD 0

/-- Embedding row of a window, spec-side. -/
def Model.windowRow {σ : Type} (m : Model σ) (w : List Char) : List ℚ :=
  m.embeddings.getD (windowIdx m.config.kmer_length w) []

/-- Spec-side pooled encoding for C1: arithmetic mean of the embedding rows
of the valid k-mer windows. -/
def Model.specPooled {σ : Type} (m : Model σ) (s : List Char) : List ℚ :=
  meanVecs m.config.dim
    ((specValidWindows m.config.kmer_length s).map (fun w => m.windowRow w))

theorem validKmerIndices_eq (k : ℕ) (hk : 1 ≤ k) (s : List Char) :
    validKmerIndices k s = (specValidWindows k s).map (windowIdx k) := by
  unfold validKmerIndices specValidWindows
  have h1 : (List.range (s.length + 1 - k)).filterMap
        (fun i => kmer_to_idx k (upperWindow s i k))
      = ((List.range (s.length + 1 - k)).map (fun i => upperWindow s i k)).filterMap
        (kmer_to_idx k) := by
    rw [List.filterMap_map]
    rfl
  rw [h1, filterMap_eq_filter_map (kmer_to_idx k) (isValidKmer k) 0
    (fun w => kmer_to_idx_isSome_iff k hk w)]
  rfl

/-- C1: encode returns the mean of the embedding rows of the valid
(case-normalized) k-mer windows; the all-zero vector when the sequence is
shorter than k or no window is valid; and, under normalization, divides by
the Euclidean norm exactly when that norm is positive, otherwise returning
the pooled vector unchanged. -/
theorem c1_encode {σ : Type} (ops : FloatOps) (m : Model σ) (s : List Char)
    (hk : 1 ≤ m.config.kmer_length) :
    (∀ nrm : Bool, s.length < m.config.kmer_length →
      m.encode ops s nrm = zeros m.config.dim) ∧
    (∀ nrm : Bool, specValidWindows m.config.kmer_length s = [] →
      m.encode ops s nrm = zeros m.config.dim) ∧
    (specValidWindows m.config.kmer_length s ≠ [] →
      m.encode ops s false = m.specPooled s) ∧
    (specValidWindows m.config.kmer_length s ≠ [] →
      m.encode ops s true =
        if 0 < ops.sqrt (sumSq (m.specPooled s)) then
          (m.specPooled s).map (fun x => x / ops.sqrt (sumSq (m.specPooled s)))
        else m.specPooled s) := by
  have hcorr := validKmerIndices_eq m.config.kmer_length hk s
  have hzero : ∀ nrm : Bool, s.length < m.config.kmer_length →
      m.encode ops s nrm = zeros m.config.dim := by
    intro nrm h
    simp [Model.encode, h]
  have hpool : validKmerIndices m.config.kmer_length s ≠ [] → ¬ s.length < m.config.kmer_length →
      meanVecs m.config.dim
          ((validKmerIndices m.config.kmer_length s).map (fun i => m.embeddings.getD i []))
        = m.specPooled s := by
    intro _ _
    rw [hcorr, List.map_map]
    rfl
  refine ⟨hzero, ?_, ?_, ?_⟩
  · intro nrm h
    by_cases hlen : s.length < m.config.kmer_length
    · exact hzero nrm hlen
    · have hidx : validKmerIndices m.config.kmer_length s = [] := by
        rw [hcorr, h]
        rfl
      simp [Model.encode, hlen, hidx]
  · intro h
    have hlen : ¬ s.length < m.config.kmer_length := by
      intro hlt
      apply h
      have : s.length + 1 - m.config.kmer_length = 0 := by omega
      simp [specValidWindows, this]
    have hidx : validKmerIndices m.config.kmer_length s ≠ [] := by
      rw [hcorr]
      simpa using h
    simp only [Model.encode, hlen, if_false, hidx, Bool.false_eq_true]
    exact hpool hidx hlen
  · intro h
    have hlen : ¬ s.length < m.config.kmer_length := by
      intro hlt
      apply h
      have : s.length + 1 - m.config.kmer_length = 0 := by omega
      simp [specValidWindows, this]
    have hidx : validKmerIndices m.config.kmer_length s ≠ [] := by
      rw [hcorr]
      simpa using h
    simp only [Model.encode, hlen, if_false, hidx]
    rw [if_pos trivial, hpool hidx hlen]

/-- A small concrete model used by witnesses: k = 1, dim = 2, four
embedding rows. -/
def mWit : Model Unit :=
  { config := { dim := 2, kmer_length := 1 },
    rng := (),
    embeddings := [[1, 0], [0, 1], [1, 1], [2, 0]],
    W1 := none, b1 := none, W2 := none, b2 := none,
    opt_W1 := none, opt_b1 := none, opt_W2 := none, opt_b2 := none,
    embed_m := zerosM 4 2, embed_v := zerosM 4 2, embed_t := 0,
    is_pretrained := false, is_finetuned := false }

theorem c1_encode_witness :
    1 ≤ mWit.config.kmer_length ∧
    ((∀ nrm : Bool, [Char.ofNat 65, Char.ofNat 67].length < mWit.config.kmer_length →
      mWit.encode fopsRat [Char.ofNat 65, Char.ofNat 67] nrm = zeros mWit.config.dim) ∧
    (∀ nrm : Bool, specValidWindows mWit.config.kmer_length [Char.ofNat 65, Char.ofNat 67] = [] →
      mWit.encode fopsRat [Char.ofNat 65, Char.ofNat 67] nrm = zeros mWit.config.dim) ∧
    (specValidWindows mWit.config.kmer_length [Char.ofNat 65, Char.ofNat 67] ≠ [] →
      mWit.encode fopsRat [Char.ofNat 65, Char.ofNat 67] false =
        mWit.specPooled [Char.ofNat 65, Char.ofNat 67]) ∧
    (specValidWindows mWit.config.kmer_length [Char.ofNat 65, Char.ofNat 67] ≠ [] →
      mWit.encode fopsRat [Char.ofNat 65, Char.ofNat 67] true =
        if 0 < fopsRat.sqrt (sumSq (mWit.specPooled [Char.ofNat 65, Char.ofNat 67])) then
          (mWit.specPooled [Char.ofNat 65, Char.ofNat 67]).map
            (fun x => x / fopsRat.sqrt (sumSq (mWit.specPooled [Char.ofNat 65, Char.ofNat 67])))
        else mWit.specPooled [Char.ofNat 65, Char.ofNat 67])) :=
  ⟨by decide, c1_encode fopsRat mWit [Char.ofNat 65, Char.ofNat 67] (by decide)⟩

/-! Contrastive pre-training machinery (_contrastive_step and the
contrastive_pretrain loop). -/

/-- Elementwise division by a scalar, numpy v / c. -/
def vecDiv (v : List ℚ) (c : ℚ) : List ℚ := v.map (fun x => x / c)

/-- augment_sequence: each position is independently replaced by a random
base with probability mutation_rate, consuming the random source in
position order exactly as the Python loop does. -/
def augment_sequence {σ : Type} (rop : RngOps σ) (sequence : List Char) (st : σ)
    (mutation_rate : ℚ) : List Char × σ :=
  sequence.foldl (fun acc c =>
    let (r, s1) := rop.random acc.2
    if r < mutation_rate then
      let (b, s2) := rop.choice s1
      (acc.1 ++ [b], s2)
    else (acc.1 ++ [c], s1)) ([], st)

/-- The list comprehension building the augmented positives (default
mutation rate 0.1), threading the random source left to right. -/
def augmentAll {σ : Type} (rop : RngOps σ) (st : σ) (seqs : List (List Char)) :
    List (List Char) × σ :=
  seqs.foldl (fun acc s =>
    let p := augment_sequence rop s acc.2 (1 / 10)
    (acc.1 ++ [p.1], p.2)) ([], st)

/-- The mutable sparse state touched by the per-row Adam updates: the two
moment tables and the embedding table itself. -/
structure EmbedState where
  m : List (List ℚ)
  v : List (List ℚ)
  e : List (List ℚ)

def Model.embedState {σ : Type} (m : Model σ) : EmbedState :=
  { m := m.embed_m, v := m.embed_v, e := m.embeddings }

/-- One sparse Adam-style row update, the shared inner-loop body of both
_contrastive_step and _finetune_step (beta1 = 0.9, beta2 = 0.999,
eps = 1e-8 as hard-coded there); t is the shared table-wide step counter. -/
def updateRow (ops : FloatOps) (lr : ℚ) (t : ℕ) (st : EmbedState) (idx : ℕ)
    (grad : List ℚ) : EmbedState :=
  let beta1 : ℚ := 9 / 10
  let beta2 : ℚ := 999 / 1000
  let mrow := List.zipWith (fun mi gi => beta1 * mi + (1 - beta1) * gi) (st.m.getD idx []) grad
  let vrow := List.zipWith (fun vi gi => beta2 * vi + (1 - beta2) * gi ^ 2) (st.v.getD idx []) grad
  let m_hat := mrow.map (fun x => x / (1 - beta1 ^ t))
  let v_hat := vrow.map (fun x => x / (1 - beta2 ^ t))
  let erow := List.zipWith (fun p u => p - lr * u) (st.e.getD idx [])
    (List.zipWith (fun mh vh => mh / (ops.sqrt vh + epsAdam)) m_hat v_hat)
  { m := st.m.set idx mrow, v := st.v.set idx vrow, e := st.e.set idx erow }

/-- Strictly sequential application of a list of (row index, gradient)
occurrences: each update reads the state already written by all earlier
occurrences. -/
def applyOccs (ops : FloatOps) (lr : ℚ) (t : ℕ) (st : EmbedState)
    (occs : List (ℕ × List ℚ)) : EmbedState :=
  occs.foldl (fun s oc => updateRow ops lr t s oc.1 oc.2) st

/-- Per-anchor work of the _contrastive_step loop body before the embedding
update: negative sampling, similarities, clipped InfoNCE loss and the
anchor gradient. -/
def contrastiveSample {σ : Type} (ops : FloatOps) (rop : RngOps σ) (temperature : ℚ)
    (num_negatives : ℕ) (anchors positives : List (List ℚ)) (batch_size : ℕ)
    (i : ℕ) (rs : σ) : (ℚ × List ℚ) × σ :=
  let (negIdxSh, rs2) := rop.shuffle rs ((List.range batch_size).filter (fun j => j ≠ i))
  let negatives := (negIdxSh.take num_negatives).map (fun j => anchors.getD j [])
  let sim_pos := cosine_similarity ops (anchors.getD i []) (positives.getD i []) / temperature
  let sim_negs := negatives.map
    (fun neg => cosine_similarity ops (anchors.getD i []) neg / temperature)
  let exp_pos := ops.exp (clip sim_pos (-20) 20)
  let exp_negs := sim_negs.map (fun x => ops.exp (clip x (-20) 20))
  let denom := exp_pos + exp_negs.sum
  let loss := -(ops.log (exp_pos / (denom + eps10)))
  let probs := (exp_pos :: exp_negs).map (fun x => x / denom)
  let weighted_sum := (List.zip (probs.drop 1) negatives).foldl
    (fun w pn => vecAdd w (vecScale pn.1 pn.2)) (vecScale (probs.getD 0 0) (positives.getD i []))
  let d_anchor := vecDiv (vecSub weighted_sum (positives.getD i [])) temperature
  ((loss, d_anchor), rs2)

/-- Parameter pack for one contrastive batch: everything the per-sample
loop body reads (all of it precomputed before the loop in the source). -/
structure BatchCtx (σ : Type) where
  ops : FloatOps
  rop : RngOps σ
  temperature : ℚ
  num_negatives : ℕ
  anchors : List (List ℚ)
  positives : List (List ℚ)
  anchor_indices : List (List ℕ)
  batch_size : ℕ

def BatchCtx.sample {σ : Type} (c : BatchCtx σ) (i : ℕ) (rs : σ) : (ℚ × List ℚ) × σ :=
  contrastiveSample c.ops c.rop c.temperature c.num_negatives c.anchors c.positives
    c.batch_size i rs

/-- The _contrastive_step loop body: per-anchor loss/gradient computation
followed by the strictly sequential sparse update of the rows the anchor
references (skipped when the anchor has no valid k-mer). -/
def stepBody {σ : Type} (c : BatchCtx σ) (lr : ℚ) (t : ℕ)
    (acc : σ × ℚ × EmbedState) (i : ℕ) : σ × ℚ × EmbedState :=
  let (sd, rs2) := c.sample i acc.1
  let idxs := c.anchor_indices.getD i []
  let es2 :=
    if idxs = [] then acc.2.2
    else
      let grad := vecDiv sd.2 (idxs.length : ℚ)
      idxs.foldl (fun st idx => updateRow c.ops lr t st idx grad) acc.2.2
  (rs2, acc.2.1 + sd.1, es2)

/-- Spec-side sequential occurrence list of a batch: the per-sample row
occurrences, sample by sample in order, each paired with that sample's
per-row gradient. -/
def BatchCtx.occs {σ : Type} (c : BatchCtx σ) : List ℕ → σ → List (ℕ × List ℚ)
  | [], _ => []
  | i :: is, rs =>
    let sd := (c.sample i rs).1
    let idxs := c.anchor_indices.getD i []
    idxs.map (fun idx => (idx, vecDiv sd.2 (idxs.length : ℚ))) ++ c.occs is (c.sample i rs).2

/-- Spec-side per-anchor loss list of a batch, threading the random source
exactly as the loop does. -/
def BatchCtx.losses {σ : Type} (c : BatchCtx σ) : List ℕ → σ → List ℚ
  | [], _ => []
  | i :: is, rs => (c.sample i rs).1.1 :: c.losses is (c.sample i rs).2

def BatchCtx.finalRng {σ : Type} (c : BatchCtx σ) : List ℕ → σ → σ
  | [], rs => rs
  | i :: is, rs => c.finalRng is (c.sample i rs).2

theorem foldl_updateRow_eq_applyOccs (ops : FloatOps) (lr : ℚ) (t : ℕ)
    (idxs : List ℕ) (grad : List ℚ) (es : EmbedState) :
    idxs.foldl (fun st idx => updateRow ops lr t st idx grad) es
      = applyOccs ops lr t es (idxs.map (fun idx => (idx, grad))) := by
  unfold applyOccs
  rw [List.foldl_map]

theorem applyOccs_append (ops : FloatOps) (lr : ℚ) (t : ℕ) (a b : List (ℕ × List ℚ))
    (es : EmbedState) :
    applyOccs ops lr t es (a ++ b) = applyOccs ops lr t (applyOccs ops lr t es a) b := by
  unfold applyOccs
  rw [List.foldl_append]

/-- Decomposition of the interleaved per-sample loop: its final state is the
purely sequential application of the flat occurrence list, its loss
accumulator the sum of the per-anchor losses, and its random state the
threaded one. -/
theorem stepBody_fold_decomp {σ : Type} (c : BatchCtx σ) (lr : ℚ) (t : ℕ) (is : List ℕ) :
    ∀ (rs : σ) (tl : ℚ) (es : EmbedState),
      is.foldl (stepBody c lr t) (rs, tl, es)
        = (c.finalRng is rs, tl + (c.losses is rs).sum, applyOccs c.ops lr t es (c.occs is rs)) := by
  induction is with
  | nil =>
    intro rs tl es
    simp [BatchCtx.finalRng, BatchCtx.losses, BatchCtx.occs, applyOccs]
  | cons i is ih =>
    intro rs tl es
    rw [List.foldl_cons, ih]
    show ((c.finalRng is (c.sample i rs).2), _, _) = _
    have hrng : c.finalRng (i :: is) rs = c.finalRng is (c.sample i rs).2 := rfl
    have hloss : (c.losses (i :: is) rs).sum = (c.sample i rs).1.1 + (c.losses is (c.sample i rs).2).sum := by
      simp [BatchCtx.losses]
    rw [hrng, hloss]
    have hocc : c.occs (i :: is) rs
        = (c.anchor_indices.getD i []).map
            (fun idx => (idx, vecDiv (c.sample i rs).1.2 ((c.anchor_indices.getD i []).length : ℚ)))
          ++ c.occs is (c.sample i rs).2 := rfl
    rw [hocc, applyOccs_append]
    have hes : (stepBody c lr t (rs, tl, es) i).2.2
        = applyOccs c.ops lr t es
            ((c.anchor_indices.getD i []).map
              (fun idx => (idx, vecDiv (c.sample i rs).1.2 ((c.anchor_indices.getD i []).length : ℚ)))) := by
      show (if c.anchor_indices.getD i [] = [] then es else _) = _
      by_cases hi : c.anchor_indices.getD i [] = []
      · rw [if_pos hi, hi]
        simp [applyOccs]
      · rw [if_neg hi, foldl_updateRow_eq_applyOccs]
        rfl
    refine Prod.ext rfl (Prod.ext ?_ ?_)
    · show (stepBody c lr t (rs, tl, es) i).2.1 + (c.losses is (c.sample i rs).2).sum = _
      show tl + (c.sample i rs).1.1 + (c.losses is (c.sample i rs).2).sum = _
      ring
    · show applyOccs c.ops lr t (stepBody c lr t (rs, tl, es) i).2.2 (c.occs is (c.sample i rs).2) = _
      rw [hes]

/-- The BatchCtx a model builds for one batch in _contrastive_step. -/
def Model.batchCtx {σ : Type} (ops : FloatOps) (rop : RngOps σ) (m : Model σ)
    (sequences : List (List Char)) (augmented : List (List Char)) : BatchCtx σ :=
  { ops := ops, rop := rop,
    temperature := m.config.temperature,
    num_negatives := m.config.num_negatives,
    anchors := sequences.map (fun s => m.encode ops s true),
    positives := augmented.map (fun s => m.encode ops s true),
    anchor_indices := sequences.map (fun s => validKmerIndices m.config.kmer_length s),
    batch_size := sequences.length }

/-- _contrastive_step: augment, encode anchors/positives, collect k-mer
indices, bump the shared step counter once, then run the per-anchor loop;
returns the updated model and total_loss / batch_size. -/
def Model.contrastive_step {σ : Type} (ops : FloatOps) (rop : RngOps σ) (m : Model σ)
    (sequences : List (List Char)) : Model σ × ℚ :=
  let augmented := (augmentAll rop m.rng sequences).1
  let rng1 := (augmentAll rop m.rng sequences).2
  let c := m.batchCtx ops rop sequences augmented
  let t := m.embed_t + 1
  let fin := (List.range sequences.length).foldl (stepBody c m.config.contrastive_lr t)
    (rng1, 0, m.embedState)
  let esF := fin.2.2
  let total_loss := fin.2.1
  ({ m with
     rng := fin.1,
     embeddings := esF.e,
     embed_m := esF.m,
     embed_v := esF.v,
     embed_t := t },
    total_loss / (sequences.length : ℚ))

/-- Loop body of one pretraining epoch: batches of fewer than 2 sequences
are skipped entirely (continue); otherwise run _contrastive_step,
accumulate its loss and count the batch. -/
def epochBody {σ : Type} (ops : FloatOps) (rop : RngOps σ)
    (acc : Model σ × ℚ × ℕ) (b : List (List Char)) : Model σ × ℚ × ℕ :=
  if b.length < 2 then acc
  else
    let (m2, l) := Model.contrastive_step ops rop acc.1 b
    (m2, acc.2.1 + l, acc.2.2 + 1)

/-- Start of one epoch: draw the permutation (advancing the random state),
shuffle the sequences and slice them into batches of 32 in range(0, n, 32)
order. -/
def Model.epochPrep {σ : Type} (rop : RngOps σ) (m : Model σ)
    (sequences : List (List Char)) : Model σ × List (List (List Char)) :=
  let (perm, rng1) := rop.permutation m.rng sequences.length
  let seqs_shuf := perm.map (fun i => sequences.getD i [])
  let batches := (List.range ((sequences.length + 31) / 32)).map
    (fun bi => (seqs_shuf.drop (32 * bi)).take 32)
  ({ m with rng := rng1 }, batches)

/-- One epoch of contrastive_pretrain: shuffle, run the batch loop and
record epoch_loss / max(n_batches, 1). -/
def Model.pretrainEpoch {σ : Type} (ops : FloatOps) (rop : RngOps σ) (m : Model σ)
    (sequences : List (List Char)) : Model σ × ℚ :=
  let prep := m.epochPrep rop sequences
  let fin := prep.2.foldl (epochBody ops rop) (prep.1, (0 : ℚ), (0 : ℕ))
  (fin.1, fin.2.1 / ((max fin.2.2 1 : ℕ) : ℚ))

def pretrainBody {σ : Type} (ops : FloatOps) (rop : RngOps σ)
    (sequences : List (List Char)) (acc : Model σ × List ℚ) (e : ℕ) : Model σ × List ℚ :=
  ((Model.pretrainEpoch ops rop acc.1 sequences).1,
    acc.2 ++ [(Model.pretrainEpoch ops rop acc.1 sequences).2])

/-- contrastive_pretrain: a fixed number of epochs, collecting the recorded
per-epoch loss values and finally setting is_pretrained. -/
def Model.contrastive_pretrain {σ : Type} (ops : FloatOps) (rop : RngOps σ) (m : Model σ)
    (sequences : List (List Char)) : Model σ × List ℚ :=
  let fin := (List.range m.config.contrastive_epochs).foldl
    (pretrainBody ops rop sequences) (m, ([] : List ℚ))
  ({ fin.1 with is_pretrained := true }, fin.2)

/-- Error raised by predict and predict_proba when the classifier was never
initialized (the source raises RuntimeError). -/
inductive PredictError where
  | notFitted
deriving DecidableEq

/-- predict: fails when W1 was never initialized, otherwise the per-row
argmax of the classifier logits over the encoded batch.  The method
mutates nothing, so it returns the model unchanged. -/
def Model.predict {σ : Type} (ops : FloatOps) (m : Model σ)
    (sequences : List (List Char)) : Except PredictError (List ℕ) × Model σ :=
  match m.W1 with
  | none => (Except.error PredictError.notFitted, m)
  | some w1 =>
    let encodings := m.encode_batch ops sequences true
    let h1 := reluM (addRowVec (matMul encodings w1) (m.b1.getD []))
    let logits := addRowVec (matMul h1 (m.W2.getD [])) (m.b2.getD [])
    (Except.ok (logits.map argmax), m)

/-- predict_proba: like predict but returning the row-wise softmax of the
logits. -/
def Model.predict_proba {σ : Type} (ops : FloatOps) (m : Model σ)
    (sequences : List (List Char)) : Except PredictError (List (List ℚ)) × Model σ :=
  match m.W1 with
  | none => (Except.error PredictError.notFitted, m)
  | some w1 =>
    let encodings := m.encode_batch ops sequences true
    let h1 := reluM (addRowVec (matMul encodings w1) (m.b1.getD []))
    let logits := addRowVec (matMul h1 (m.W2.getD [])) (m.b2.getD [])
    (Except.ok (logits.map (fun r => softmaxRow ops r)), m)

/-- Fields of the model that contrastive pretraining must not touch:
config, classifier weights, classifier optimizers and the fine-tuned flag. -/
def classifierFrame {σ : Type} (a b : Model σ) : Prop :=
  a.config = b.config ∧ a.W1 = b.W1 ∧ a.b1 = b.b1 ∧ a.W2 = b.W2 ∧ a.b2 = b.b2 ∧
  a.opt_W1 = b.opt_W1 ∧ a.opt_b1 = b.opt_b1 ∧ a.opt_W2 = b.opt_W2 ∧ a.opt_b2 = b.opt_b2 ∧
  a.is_finetuned = b.is_finetuned

theorem classifierFrame_refl {σ : Type} (m : Model σ) : classifierFrame m m :=
  ⟨rfl, rfl, rfl, rfl, rfl, rfl, rfl, rfl, rfl, rfl⟩

theorem classifierFrame_trans {σ : Type} {a b c : Model σ}
    (h1 : classifierFrame a b) (h2 : classifierFrame b c) : classifierFrame a c := by
  obtain ⟨e1, e2, e3, e4, e5, e6, e7, e8, e9, e10⟩ := h1
  obtain ⟨f1, f2, f3, f4, f5, f6, f7, f8, f9, f10⟩ := h2
  exact ⟨e1.trans f1, e2.trans f2, e3.trans f3, e4.trans f4, e5.trans f5,
    e6.trans f6, e7.trans f7, e8.trans f8, e9.trans f9, e10.trans f10⟩

theorem contrastive_step_frame {σ : Type} (ops : FloatOps) (rop : RngOps σ) (m : Model σ)
    (b : List (List Char)) : classifierFrame (Model.contrastive_step ops rop m b).1 m :=
  ⟨rfl, rfl, rfl, rfl, rfl, rfl, rfl, rfl, rfl, rfl⟩

theorem epochFold_frame {σ : Type} (ops : FloatOps) (rop : RngOps σ)
    (bs : List (List (List Char))) :
    ∀ acc : Model σ × ℚ × ℕ, classifierFrame (bs.foldl (epochBody ops rop) acc).1 acc.1 := by
  induction bs with
  | nil => intro acc; exact classifierFrame_refl _
  | cons b bs ih =>
    intro acc
    rw [List.foldl_cons]
    refine classifierFrame_trans (ih _) ?_
    unfold epochBody
    by_cases hb : b.length < 2
    · rw [if_pos hb]
      exact classifierFrame_refl _
    · rw [if_neg hb]
      exact contrastive_step_frame ops rop acc.1 b

theorem pretrainEpoch_frame {σ : Type} (ops : FloatOps) (rop : RngOps σ) (m : Model σ)
    (sequences : List (List Char)) :
    classifierFrame (Model.pretrainEpoch ops rop m sequences).1 m := by
  refine classifierFrame_trans (epochFold_frame ops rop _ _) ?_
  exact ⟨rfl, rfl, rfl, rfl, rfl, rfl, rfl, rfl, rfl, rfl⟩

theorem pretrainFold_frame {σ : Type} (ops : FloatOps) (rop : RngOps σ)
    (sequences : List (List Char)) (es : List ℕ) :
    ∀ acc : Model σ × List ℚ,
      classifierFrame (es.foldl (pretrainBody ops rop sequences) acc).1 acc.1 := by
  induction es with
  | nil => intro acc; exact classifierFrame_refl _
  | cons e es ih =>
    intro acc
    rw [List.foldl_cons]
    exact classifierFrame_trans (ih _) (pretrainEpoch_frame ops rop acc.1 sequences)

/-- C7 (amended): contrastive_pretrain leaves the classifier weights,
their optimizers, the config and the is_finetuned flag untouched — it
mutates only the embedding table, the moment accumulators, the shared step
counter and the random state, and additionally sets the is_pretrained flag
to true; predict and predict_proba leave the whole model state unchanged. -/
theorem c7_pretrain_frame {σ : Type} (ops : FloatOps) (rop : RngOps σ) (m : Model σ)
    (sequences ss : List (List Char)) :
    classifierFrame (Model.contrastive_pretrain ops rop m sequences).1 m ∧
    (Model.contrastive_pretrain ops rop m sequences).1.is_pretrained = true ∧
    (Model.predict ops m ss).2 = m ∧
    (Model.predict_proba ops m ss).2 = m := by
  refine ⟨?_, rfl, ?_, ?_⟩
  · exact pretrainFold_frame ops rop sequences _ (m, [])
  · cases h : m.W1 <;> simp [Model.predict, h]
  · cases h : m.W1 <;> simp [Model.predict_proba, h]

/-- Random operations used by counterexamples and witnesses: identity
permutation and shuffle, constant draws. -/
def rngId : RngOps Unit :=
  { permutation := fun s n => (List.range n, s),
    shuffle := fun s l => (l, s),
    random := fun s => (1, s),
    choice := fun s => (Char.ofNat 65, s),
    randn := fun s r c => (zerosM r c, s) }

/-- Float operations used by the C3 counterexample: constant exp,
identity log. -/
def fopsC3 : FloatOps :=
  { sqrt := fun x => x, exp := fun _ => 1, log := fun x => x }

/-- Model used by the C3 and C7 counterexamples: k = 1, dim = 1, one
pretraining epoch. -/
def mC3 : Model Unit :=
  { config :=
      { dim := 1,
        kmer_length := 1,
        contrastive_epochs := 1 },
    rng := (),
    embeddings := [[0], [0], [0], [0]],
    W1 := none, b1 := none, W2 := none, b2 := none,
    opt_W1 := none, opt_b1 := none, opt_W2 := none, opt_b2 := none,
    embed_m := zerosM 4 1, embed_v := zerosM 4 1, embed_t := 0,
    is_pretrained := false, is_finetuned := false }

/-- C7 counterexample: contrastive_pretrain also flips the is_pretrained
flag, so it does not mutate only the embedding table, its optimizer state
and the random source. -/
theorem c7_pretrain_frame_counterexample :
    (Model.contrastive_pretrain fopsC3 rngId mC3 ([] : List (List Char))).1.is_pretrained
      ≠ mC3.is_pretrained := by
  decide

/-- Mean of a list of rationals (sum / length). -/
def listMean (l : List ℚ) : ℚ := l.sum / (l.length : ℚ)

/-- Spec-side list of the per-anchor InfoNCE losses of one batch, threading
the random source exactly as _contrastive_step does. -/
def Model.batchAnchorLosses {σ : Type} (ops : FloatOps) (rop : RngOps σ) (m : Model σ)
    (b : List (List Char)) : List ℚ :=
  let augmented := (augmentAll rop m.rng b).1
  let rng1 := (augmentAll rop m.rng b).2
  let c := m.batchCtx ops rop b augmented
  c.losses (List.range b.length) rng1

theorem losses_length {σ : Type} (c : BatchCtx σ) :
    ∀ (is : List ℕ) (rs : σ), (c.losses is rs).length = is.length := by
  intro is
  induction is with
  | nil => intro rs; rfl
  | cons i is ih =>
    intro rs
    simp [BatchCtx.losses, ih]

/-- The loss returned by _contrastive_step is the arithmetic mean of the
per-anchor losses of that batch. -/
theorem contrastive_step_loss {σ : Type} (ops : FloatOps) (rop : RngOps σ) (m : Model σ)
    (b : List (List Char)) :
    (Model.contrastive_step ops rop m b).2 = listMean (Model.batchAnchorLosses ops rop m b) := by
  unfold Model.contrastive_step Model.batchAnchorLosses listMean
  simp only [stepBody_fold_decomp, losses_length, List.length_range, zero_add]

/-- Spec-side loop collecting, per processed batch, the per-anchor loss
list (skipping batches smaller than 2, like the training loop). -/
def lossBody {σ : Type} (ops : FloatOps) (rop : RngOps σ)
    (acc : Model σ × List (List ℚ)) (b : List (List Char)) : Model σ × List (List ℚ) :=
  if b.length < 2 then acc
  else
    ((Model.contrastive_step ops rop acc.1 b).1,
      acc.2 ++ [Model.batchAnchorLosses ops rop acc.1 b])

/-- Spec-side per-batch anchor-loss lists of one epoch, one entry per
processed batch. -/
def Model.epochLossLists {σ : Type} (ops : FloatOps) (rop : RngOps σ) (m : Model σ)
    (sequences : List (List Char)) : List (List ℚ) :=
  let prep := m.epochPrep rop sequences
  (prep.2.foldl (lossBody ops rop) (prep.1, ([] : List (List ℚ)))).2

theorem epochFold_loss_rel {σ : Type} (ops : FloatOps) (rop : RngOps σ)
    (bs : List (List (List Char))) :
    ∀ (mm : Model σ) (ls : List (List ℚ)),
      (bs.foldl (epochBody ops rop) (mm, (ls.map listMean).sum, ls.length)).1
        = (bs.foldl (lossBody ops rop) (mm, ls)).1 ∧
      (bs.foldl (epochBody ops rop) (mm, (ls.map listMean).sum, ls.length)).2.1
        = (((bs.foldl (lossBody ops rop) (mm, ls)).2).map listMean).sum ∧
      (bs.foldl (epochBody ops rop) (mm, (ls.map listMean).sum, ls.length)).2.2
        = ((bs.foldl (lossBody ops rop) (mm, ls)).2).length := by
  induction bs with
  | nil => intro mm ls; exact ⟨rfl, rfl, rfl⟩
  | cons b bs ih =>
    intro mm ls
    rw [List.foldl_cons, List.foldl_cons]
    by_cases hb : b.length < 2
    · have he : epochBody ops rop (mm, (ls.map listMean).sum, ls.length) b
          = (mm, (ls.map listMean).sum, ls.length) := by
        simp [epochBody, hb]
      have hl : lossBody ops rop (mm, ls) b = (mm, ls) := by
        simp [lossBody, hb]
      rw [he, hl]
      exact ih mm ls
    · have he : epochBody ops rop (mm, (ls.map listMean).sum, ls.length) b
          = ((Model.contrastive_step ops rop mm b).1,
             ((ls ++ [Model.batchAnchorLosses ops rop mm b]).map listMean).sum,
             (ls ++ [Model.batchAnchorLosses ops rop mm b]).length) := by
        simp [epochBody, hb, contrastive_step_loss, List.map_append, List.sum_append]
      have hl : lossBody ops rop (mm, ls) b
          = ((Model.contrastive_step ops rop mm b).1,
             ls ++ [Model.batchAnchorLosses ops rop mm b]) := by
        simp [lossBody, hb]
      rw [he, hl]
      exact ih _ _

/-- The loss an epoch records is the unweighted mean over the processed
batches of each batch's per-anchor mean loss, with 0 (via max(n,1)) when no
batch was processed. -/
theorem pretrainEpoch_loss {σ : Type} (ops : FloatOps) (rop : RngOps σ) (m : Model σ)
    (sequences : List (List Char)) :
    (Model.pretrainEpoch ops rop m sequences).2
      = ((Model.epochLossLists ops rop m sequences).map listMean).sum
        / ((max (Model.epochLossLists ops rop m sequences).length 1 : ℕ) : ℚ) := by
  simp only [Model.pretrainEpoch, Model.epochLossLists]
  rcases epochFold_loss_rel ops rop (m.epochPrep rop sequences).2 (m.epochPrep rop sequences).1
    ([] : List (List ℚ)) with ⟨h1, h2, h3⟩
  simp only [List.map_nil, List.sum_nil, List.length_nil] at h2 h3
  rw [h2, h3]

/-- Model state after e epochs of pretraining (spec-side iterate). -/
def Model.pretrainIter {σ : Type} (ops : FloatOps) (rop : RngOps σ)
    (sequences : List (List Char)) : ℕ → Model σ → Model σ
  | 0, m => m
  | e + 1, m =>
    (Model.pretrainEpoch ops rop (Model.pretrainIter ops rop sequences e m) sequences).1

theorem pretrainFold_eq {σ : Type} (ops : FloatOps) (rop : RngOps σ)
    (sequences : List (List Char)) :
    ∀ (n : ℕ) (m : Model σ) (acc : List ℚ),
      (List.range n).foldl (pretrainBody ops rop sequences) (m, acc)
        = (Model.pretrainIter ops rop sequences n m,
           acc ++ (List.range n).map (fun e =>
             (Model.pretrainEpoch ops rop (Model.pretrainIter ops rop sequences e m)
               sequences).2)) := by
  intro n
  induction n with
  | zero =>
    intro m acc
    simp [Model.pretrainIter]
  | succ n ih =>
    intro m acc
    simp only [List.range_succ]
    rw [List.foldl_append, ih, List.map_append, ← List.append_assoc]
    simp only [List.foldl_cons, List.foldl_nil]
    unfold pretrainBody
    rfl

/-- C3 (amended): each recorded epoch loss equals the unweighted mean over
the processed batches (those of size at least 2) of each batch's per-anchor
mean InfoNCE loss — not the mean over all anchors when batch sizes differ;
an epoch with no processed batch records 0. -/
theorem c3_epoch_loss_recording {σ : Type} (ops : FloatOps) (rop : RngOps σ) (m : Model σ)
    (sequences : List (List Char)) :
    (Model.contrastive_pretrain ops rop m sequences).2
      = (List.range m.config.contrastive_epochs).map (fun e =>
          ((Model.epochLossLists ops rop (Model.pretrainIter ops rop sequences e m)
              sequences).map listMean).sum
            / ((max (Model.epochLossLists ops rop (Model.pretrainIter ops rop sequences e m)
                sequences).length 1 : ℕ) : ℚ)) := by
  unfold Model.contrastive_pretrain
  rw [pretrainFold_eq]
  simp only [List.nil_append]
  simp only [pretrainEpoch_loss]

def seqs34 : List (List Char) := List.replicate 34 []

theorem sumSq_zeros (n : ℕ) : sumSq (zeros n) = 0 := by
  induction n with
  | zero => rfl
  | succ n ih => simpa [sumSq, zeros, List.replicate_succ] using ih

theorem cosine_zeros (d e : ℕ) :
    cosine_similarity fopsC3 (zeros d) (zeros e) = 0 := by
  simp [cosine_similarity, fopsC3, sumSq_zeros]

theorem getD_replicate_of_lt {α : Type} (a d : α) {n i : ℕ} (h : i < n) :
    (List.replicate n a).getD i d = a := by
  rw [List.getD_eq_get _ _ (by simpa using h)]
  exact List.get_replicate a _

theorem map_eq_replicate {α β : Type} (f : α → β) (l : List α) (b : β)
    (h : ∀ x ∈ l, f x = b) : l.map f = List.replicate l.length b := by
  induction l with
  | nil => rfl
  | cons a l ih =>
    simp only [List.map_cons, List.length_cons, List.replicate_succ]
    rw [h a (by simp), ih (fun x hx => h x (by simp [hx]))]

theorem length_filter_ne (n : ℕ) : ∀ i : ℕ, i < n →
    ((List.range n).filter (fun j => j ≠ i)).length = n - 1 := by
  induction n with
  | zero => intro i hi; omega
  | succ n ih =>
    intro i hi
    rw [List.range_succ, List.filter_append, List.length_append]
    by_cases he : i = n
    · subst he
      have h1 : (List.range i).filter (fun j => j ≠ i) = List.range i := by
        rw [List.filter_eq_self]
        intro a ha
        have := List.mem_range.mp ha
        simp
        omega
      have h2 : [i].filter (fun j => j ≠ i) = [] := by simp
      rw [h1, h2]
      simp only [List.length_range, List.length_nil]
      omega
    · have hi2 : i < n := by omega
      have h2 : [n].filter (fun j => j ≠ i) = [n] := by
        simp
        omega
      rw [ih i hi2, h2]
      simp only [List.length_cons, List.length_nil]
      omega

theorem encode_nil {σ : Type} (ops : FloatOps) (m : Model σ) (b : Bool)
    (hk : 1 ≤ m.config.kmer_length) :
    m.encode ops [] b = zeros m.config.dim := by
  unfold Model.encode
  rw [if_pos (by simpa using hk)]

theorem listMean_replicate (k : ℕ) (a : ℚ) (hk : k ≠ 0) :
    listMean (List.replicate k a) = a := by
  simp only [listMean, List.sum_replicate, List.length_replicate, nsmul_eq_mul]
  rw [mul_div_cancel_left₀]
  exact Nat.cast_ne_zero.mpr hk

/-- The per-anchor loss value under fopsC3 for an anchor whose similarities
are all zero and which sees k negatives. -/
def lossConst (k : ℕ) : ℚ := -(1 / ((1 + (k : ℚ)) + eps10))

theorem sample_loss_empty (c : BatchCtx Unit) (d : ℕ) (i : ℕ)
    (hops : c.ops = fopsC3) (hrop : c.rop = rngId)
    (ha : c.anchors = List.replicate c.batch_size (zeros d))
    (hp : c.positives = List.replicate c.batch_size (zeros d))
    (hi : i < c.batch_size) :
    (c.sample i ()).1.1 = lossConst (min c.num_negatives (c.batch_size - 1)) := by
  have hlst : ((List.range c.batch_size).filter (fun j => j ≠ i)).length
      = c.batch_size - 1 := length_filter_ne _ i hi
  have hgetDi : (List.replicate c.batch_size (zeros d)).getD i ([] : List ℚ) = zeros d :=
    getD_replicate_of_lt _ _ hi
  have hmap : ((((List.range c.batch_size).filter (fun j => j ≠ i)).take c.num_negatives).map
      (fun j => (List.replicate c.batch_size (zeros d)).getD j []))
      = List.replicate (min c.num_negatives (c.batch_size - 1)) (zeros d) := by
    rw [map_eq_replicate _ _ (zeros d) ?_, List.length_take, hlst]
    intro j hj
    have hj2 : j ∈ (List.range c.batch_size).filter (fun j => j ≠ i) :=
      List.take_subset _ _ hj
    have hj3 : j < c.batch_size := List.mem_range.mp (List.mem_filter.mp hj2).1
    exact getD_replicate_of_lt _ _ hj3
  simp only [BatchCtx.sample, contrastiveSample, hops, hrop, ha, hp, rngId]
  rw [hmap, hgetDi]
  simp only [cosine_zeros, zero_div, List.map_replicate, fopsC3]
  simp only [List.sum_replicate, nsmul_eq_mul, mul_one, lossConst]

theorem losses_unit (c : BatchCtx Unit) :
    ∀ is : List ℕ, c.losses is () = is.map (fun i => (c.sample i ()).1.1) := by
  intro is
  induction is with
  | nil => rfl
  | cons i is ih => simp [BatchCtx.losses, ih]

theorem batch_losses_empty (m : Model Unit) (n d : ℕ)
    (hk : 1 ≤ m.config.kmer_length) (hd : m.config.dim = d) :
    Model.batchAnchorLosses fopsC3 rngId m (List.replicate n [])
      = List.replicate n (lossConst (min m.config.num_negatives (n - 1))) := by
  have haug : augmentAll rngId m.rng (List.replicate n []) = (List.replicate n [], m.rng) := by
    have key : ∀ (k : ℕ) (acc : List (List Char) × Unit),
        (List.replicate k ([] : List Char)).foldl (fun acc s =>
            let p := augment_sequence rngId s acc.2 (1 / 10)
            (acc.1 ++ [p.1], p.2)) acc
          = (acc.1 ++ List.replicate k [], acc.2) := by
      intro k
      induction k with
      | zero => intro acc; simp
      | succ k ih =>
        intro acc
        rw [List.replicate_succ, List.foldl_cons, ih]
        simp [augment_sequence]
    unfold augmentAll
    rw [key n ([], m.rng)]
    rfl
  have henc : Model.encode fopsC3 m [] true = zeros d := by
    rw [encode_nil fopsC3 m true hk, hd]
  unfold Model.batchAnchorLosses
  rw [haug]
  dsimp only
  have hctx : (m.batchCtx fopsC3 rngId (List.replicate n []) (List.replicate n [])).anchors
      = List.replicate n (zeros d) := by
    simp [Model.batchCtx, List.map_replicate, henc]
  have hctx2 : (m.batchCtx fopsC3 rngId (List.replicate n []) (List.replicate n [])).positives
      = List.replicate n (zeros d) := by
    simp [Model.batchCtx, List.map_replicate, henc]
  have hbs : (m.batchCtx fopsC3 rngId (List.replicate n []) (List.replicate n [])).batch_size
      = n := by
    simp [Model.batchCtx]
  have hrng : m.rng = () := rfl
  rw [hrng, losses_unit]
  rw [show (List.replicate n ([] : List Char)).length = n from List.length_replicate n []]
  rw [map_eq_replicate _ _ (lossConst (min m.config.num_negatives (n - 1))) ?_,
    List.length_range]
  intro j hj
  rw [sample_loss_empty _ d j (by simp [Model.batchCtx]) (by simp [Model.batchCtx])
    (by rw [hctx, hbs]) (by rw [hctx2, hbs]) (by rw [hbs]; exact List.mem_range.mp hj)]
  rw [show (m.batchCtx fopsC3 rngId (List.replicate n []) (List.replicate n [])).num_negatives
    = m.config.num_negatives from rfl, hbs]

theorem mC3_epochPrep :
    (mC3.epochPrep rngId seqs34).2
      = [List.replicate 32 ([] : List Char), List.replicate 2 []] ∧
    (mC3.epochPrep rngId seqs34).1 = { mC3 with rng := () } := by
  constructor
  · decide
  · rfl

/-- C3 counterexample: with 34 sequences the epoch has a batch of 32 and a
batch of 2; the recorded epoch loss is the unweighted mean of the two
per-batch means, which differs from the mean of the 34 per-anchor losses. -/
theorem c3_epoch_loss_counterexample :
    (Model.contrastive_pretrain fopsC3 rngId mC3 seqs34).2
        = [(lossConst 8 + lossConst 1) / 2] ∧
    (Model.epochLossLists fopsC3 rngId mC3 seqs34).flatten
        = List.replicate 32 (lossConst 8) ++ List.replicate 2 (lossConst 1) ∧
    (lossConst 8 + lossConst 1) / 2
      ≠ listMean (List.replicate 32 (lossConst 8) ++ List.replicate 2 (lossConst 1)) := by
  have hm2 := contrastive_step_frame fopsC3 rngId ({ mC3 with rng := () })
    (List.replicate 32 ([] : List Char))
  have hcfg2 : (Model.contrastive_step fopsC3 rngId ({ mC3 with rng := () })
      (List.replicate 32 ([] : List Char))).1.config = mC3.config := hm2.1
  have hb1 : Model.batchAnchorLosses fopsC3 rngId ({ mC3 with rng := () })
      (List.replicate 32 []) = List.replicate 32 (lossConst 8) := by
    rw [batch_losses_empty _ 32 1 (by decide) (by decide)]
    rfl
  have hb2 : Model.batchAnchorLosses fopsC3 rngId
      (Model.contrastive_step fopsC3 rngId ({ mC3 with rng := () })
        (List.replicate 32 ([] : List Char))).1
      (List.replicate 2 []) = List.replicate 2 (lossConst 1) := by
    rw [batch_losses_empty _ 2 1 (by rw [hcfg2]; decide) (by rw [hcfg2]; decide)]
    rw [show (Model.contrastive_step fopsC3 rngId ({ mC3 with rng := () })
      (List.replicate 32 ([] : List Char))).1.config.num_negatives
      = mC3.config.num_negatives from by rw [hcfg2]]
    rfl
  have hlists : Model.epochLossLists fopsC3 rngId mC3 seqs34
      = [List.replicate 32 (lossConst 8), List.replicate 2 (lossConst 1)] := by
    simp only [Model.epochLossLists]
    rw [(mC3_epochPrep).1, (mC3_epochPrep).2]
    rw [List.foldl_cons, List.foldl_cons, List.foldl_nil]
    rw [show lossBody fopsC3 rngId ({ mC3 with rng := () }, ([] : List (List ℚ)))
        (List.replicate 32 []) =
      ((Model.contrastive_step fopsC3 rngId ({ mC3 with rng := () })
          (List.replicate 32 [])).1,
        [Model.batchAnchorLosses fopsC3 rngId ({ mC3 with rng := () })
          (List.replicate 32 [])]) from by simp [lossBody]]
    rw [show ∀ mm : Model Unit, lossBody fopsC3 rngId
        (mm, [Model.batchAnchorLosses fopsC3 rngId ({ mC3 with rng := () })
          (List.replicate 32 [])]) (List.replicate 2 []) =
      ((Model.contrastive_step fopsC3 rngId mm (List.replicate 2 [])).1,
        [Model.batchAnchorLosses fopsC3 rngId ({ mC3 with rng := () })
            (List.replicate 32 []),
          Model.batchAnchorLosses fopsC3 rngId mm (List.replicate 2 [])])
      from fun mm => by simp [lossBody]]
    rw [hb1, hb2]
  refine ⟨?_, ?_, ?_⟩
  · unfold Model.contrastive_pretrain
    rw [pretrainFold_eq]
    simp only [List.nil_append]
    simp only [pretrainEpoch_loss]
    rw [show mC3.config.contrastive_epochs = 1 from rfl]
    rw [show List.range 1 = [0] from rfl]
    rw [List.map_cons, List.map_nil]
    rw [show Model.pretrainIter fopsC3 rngId seqs34 0 mC3 = mC3 from rfl]
    rw [hlists]
    rw [List.map_cons, List.map_cons, List.map_nil]
    rw [listMean_replicate 32 _ (by omega), listMean_replicate 2 _ (by omega)]
    norm_num
  · rw [hlists]
    simp
  · simp only [listMean, List.sum_append, List.sum_replicate, List.length_append,
      List.length_replicate, smul_eq_mul, lossConst, eps10]
    norm_num

/-! Supervised fine-tuning (_finetune_step, finetune with early stopping). -/

def AdamOptimizer.zeroDefault : AdamOptimizer := AdamOptimizer.init 0 0

def AdamOptimizerM.zeroDefault : AdamOptimizerM := AdamOptimizerM.init 0 0 0

/-- Results of the forward and backward pass of _finetune_step, computed
before any parameter is updated. -/
structure FtBack where
  encodings : List (List ℚ)
  kmer_indices_batch : List (List ℕ)
  h1 : List (List ℚ)
  a1 : List (List ℚ)
  loss : ℚ
  d_W2 : List (List ℚ)
  d_b2 : List ℚ
  d_W1 : List (List ℚ)
  d_b1 : List ℚ
  d_encodings : List (List ℚ)

/-- Forward and backward pass of _finetune_step: inlined encoding (mean of
referenced rows, normalized when the norm is positive, zeros otherwise), the
two-layer MLP, softmax cross-entropy with L2 regularization, and the chain
rule back to the pooled encodings. -/
def Model.ftBack {σ : Type} (ops : FloatOps) (m : Model σ)
    (sequences : List (List Char)) (labels : List ℕ) : FtBack :=
  let config := m.config
  let batch_size := sequences.length
  let k := config.kmer_length
  let kmer_indices_batch := sequences.map (fun s => validKmerIndices k s)
  let encodings := sequences.map (fun s =>
    let indices := validKmerIndices k s
    if indices = [] then zeros config.dim
    else
      let vecs := indices.map (fun i => m.embeddings.getD i [])
      let enc := meanVecs config.dim vecs
      let norm := ops.sqrt (sumSq enc)
      if 0 < norm then enc.map (fun x => x / norm) else enc)
  let h1 := addRowVec (matMul encodings (m.W1.getD [])) (m.b1.getD [])
  let a1 := reluM h1
  let logits := addRowVec (matMul a1 (m.W2.getD [])) (m.b2.getD [])
  let probs := logits.map (fun r => softmaxRow ops r)
  let labels_onehot := labels.map (fun l =>
    (List.range config.num_classes).map (fun j => if j = l then (1 : ℚ) else 0))
  let ce_rows := List.zipWith
    (fun oh pr => (vecMul oh (pr.map (fun p => ops.log (p + eps10)))).sum)
    labels_onehot probs
  let ce_loss := -(ce_rows.sum / (batch_size : ℚ))
  let l2_loss := 1 / 2 * config.l2_reg * (sumSqM (m.W1.getD []) + sumSqM (m.W2.getD []))
  let loss := ce_loss + l2_loss
  let d_logits := (List.zipWith vecSub probs labels_onehot).map
    (fun r => vecDiv r (batch_size : ℚ))
  let d_W2 := matAdd (matMul a1.transpose d_logits) (matScale config.l2_reg (m.W2.getD []))
  let d_b2 := colSum config.num_classes d_logits
  let d_a1 := matMul d_logits (m.W2.getD []).transpose
  let d_h1 := List.zipWith
    (fun da hr => List.zipWith (fun dv hv => if 0 < hv then dv else 0) da hr) d_a1 h1
  let d_W1 := matAdd (matMul encodings.transpose d_h1) (matScale config.l2_reg (m.W1.getD []))
  let d_b1 := colSum config.mlp_hidden d_h1
  let d_encodings := matMul d_h1 (m.W1.getD []).transpose
  { encodings := encodings, kmer_indices_batch := kmer_indices_batch,
    h1 := h1, a1 := a1, loss := loss,
    d_W2 := d_W2, d_b2 := d_b2, d_W1 := d_W1, d_b1 := d_b1, d_encodings := d_encodings }

/-- Loop body of the sparse embedding update of _finetune_step: per sample,
skip when it referenced no valid k-mer, else sequentially update each
referenced row with the sample gradient split evenly over its rows. -/
def embedBody (ops : FloatOps) (lr : ℚ) (t : ℕ) (st : EmbedState)
    (p : List ℚ × List ℕ) : EmbedState :=
  if p.2 = [] then st
  else
    let grad := vecDiv p.1 (p.2.length : ℚ)
    p.2.foldl (fun st2 idx => updateRow ops lr t st2 idx grad) st

/-- _finetune_step: forward and backward pass, Adam updates of W2, b2, W1,
b1 through their optimizers, then the sparse embedding update at the
reduced learning rate finetune_lr * 0.1 with the shared step counter
bumped once. -/
def Model.finetune_step {σ : Type} (ops : FloatOps) (m : Model σ)
    (sequences : List (List Char)) (labels : List ℕ) : Model σ × ℚ :=
  let config := m.config
  let fb := m.ftBack ops sequences labels
  let u2 := AdamOptimizerM.update ops (m.opt_W2.getD AdamOptimizerM.zeroDefault)
    (m.W2.getD []) fb.d_W2
  let ub2 := AdamOptimizer.update ops (m.opt_b2.getD AdamOptimizer.zeroDefault)
    (m.b2.getD []) fb.d_b2
  let u1 := AdamOptimizerM.update ops (m.opt_W1.getD AdamOptimizerM.zeroDefault)
    (m.W1.getD []) fb.d_W1
  let ub1 := AdamOptimizer.update ops (m.opt_b1.getD AdamOptimizer.zeroDefault)
    (m.b1.getD []) fb.d_b1
  let lr := config.finetune_lr * (1 / 10)
  let t := m.embed_t + 1
  let esF := (List.zip fb.d_encodings fb.kmer_indices_batch).foldl
    (embedBody ops lr t) m.embedState
  ({ m with
     W1 := some u1.2,
     b1 := some ub1.2,
     W2 := some u2.2,
     b2 := some ub2.2,
     opt_W1 := some u1.1,
     opt_b1 := some ub1.1,
     opt_W2 := some u2.1,
     opt_b2 := some ub2.1,
     embeddings := esF.e,
     embed_m := esF.m,
     embed_v := esF.v,
     embed_t := t }, fb.loss)

/-- Spec-side flat occurrence list of the contrastive step: per-sample row
occurrences in order, built from the same random-source thread. -/
def Model.contrastiveOccs {σ : Type} (ops : FloatOps) (rop : RngOps σ) (m : Model σ)
    (sequences : List (List Char)) : List (ℕ × List ℚ) :=
  let augmented := (augmentAll rop m.rng sequences).1
  let rng1 := (augmentAll rop m.rng sequences).2
  let c := m.batchCtx ops rop sequences augmented
  c.occs (List.range sequences.length) rng1

/-- Spec-side flat occurrence list of the fine-tune step. -/
def Model.finetuneOccs {σ : Type} (ops : FloatOps) (m : Model σ)
    (sequences : List (List Char)) (labels : List ℕ) : List (ℕ × List ℚ) :=
  let fb := m.ftBack ops sequences labels
  ((List.zip fb.d_encodings fb.kmer_indices_batch).map (fun p =>
    p.2.map (fun idx => (idx, vecDiv p.1 (p.2.length : ℚ))))).flatten

theorem embedFold_decomp (ops : FloatOps) (lr : ℚ) (t : ℕ) :
    ∀ (ps : List (List ℚ × List ℕ)) (st : EmbedState),
      ps.foldl (embedBody ops lr t) st
        = applyOccs ops lr t st
            ((ps.map (fun p => p.2.map (fun idx => (idx, vecDiv p.1 (p.2.length : ℚ))))).flatten) := by
  intro ps
  induction ps with
  | nil => intro st; rfl
  | cons p ps ih =>
    intro st
    rw [List.foldl_cons, List.map_cons, List.flatten_cons, applyOccs_append, ih]
    congr 1
    unfold embedBody
    by_cases hp : p.2 = []
    · rw [if_pos hp, hp]
      rfl
    · rw [if_neg hp, foldl_updateRow_eq_applyOccs]

/-- C4: in both _contrastive_step and _finetune_step the sparse embedding
updates are applied strictly sequentially, sample by sample and row
occurrence by row occurrence (a row referenced twice is updated twice, the
later update reading the already-written state); both bump the shared
table-wide step counter embed_t exactly once per batch step and drive the
same accumulators through the same per-row update rule. -/
theorem c4_sequential_updates {σ : Type} (ops : FloatOps) (rop : RngOps σ) (m : Model σ)
    (sequences : List (List Char)) (labels : List ℕ) :
    (Model.contrastive_step ops rop m sequences).1.embed_t = m.embed_t + 1 ∧
    (Model.finetune_step ops m sequences labels).1.embed_t = m.embed_t + 1 ∧
    (Model.contrastive_step ops rop m sequences).1.embedState
      = applyOccs ops m.config.contrastive_lr (m.embed_t + 1) m.embedState
          (Model.contrastiveOccs ops rop m sequences) ∧
    (Model.finetune_step ops m sequences labels).1.embedState
      = applyOccs ops (m.config.finetune_lr * (1 / 10)) (m.embed_t + 1) m.embedState
          (Model.finetuneOccs ops m sequences labels) := by
  refine ⟨rfl, rfl, ?_, ?_⟩
  · have h := stepBody_fold_decomp
      (m.batchCtx ops rop sequences ((augmentAll rop m.rng sequences).1))
      m.config.contrastive_lr (m.embed_t + 1) (List.range sequences.length)
      ((augmentAll rop m.rng sequences).2) 0 m.embedState
    show (List.foldl (stepBody (m.batchCtx ops rop sequences
        ((augmentAll rop m.rng sequences).1)) m.config.contrastive_lr (m.embed_t + 1))
        (((augmentAll rop m.rng sequences).2), (0 : ℚ), m.embedState)
        (List.range sequences.length)).2.2 = _
    rw [h]
    rfl
  · have h := embedFold_decomp ops (m.config.finetune_lr * (1 / 10)) (m.embed_t + 1)
      (List.zip (m.ftBack ops sequences labels).d_encodings
        (m.ftBack ops sequences labels).kmer_indices_batch) m.embedState
    show List.foldl (embedBody ops (m.config.finetune_lr * (1 / 10)) (m.embed_t + 1))
        m.embedState (List.zip (m.ftBack ops sequences labels).d_encodings
          (m.ftBack ops sequences labels).kmer_indices_batch) = _
    rw [h]
    rfl

/-- The dictionary finetune returns: best validation accuracy, its epoch,
and the history lists. -/
structure FinetuneResult where
  best_val_acc : ℚ
  best_epoch : ℕ
  train_loss : List ℚ
  val_acc : List ℚ
deriving DecidableEq

/-- np.mean(preds == labels): fraction of positions where prediction and
label agree. -/
def accuracy (preds labels : List ℕ) : ℚ :=
  (((preds.zip labels).countP (fun p => decide (p.1 = p.2))) : ℚ)
    / (((preds.zip labels).length : ℕ) : ℚ)

/-- Validation accuracy of one epoch: predict on the validation set (the
classifier is initialized here, so the Except cannot be an error) and
compare with the labels. -/
def Model.valAccuracy {σ : Type} (ops : FloatOps) (m : Model σ)
    (val_seqs : List (List Char)) (val_labels : List ℕ) : ℚ :=
  accuracy (((Model.predict ops m val_seqs).1.toOption).getD []) val_labels

/-- One training epoch of finetune: shuffle, batches of 32, accumulate
loss * batch size, divide by the number of training sequences. -/
def Model.finetuneTrainEpoch {σ : Type} (ops : FloatOps) (rop : RngOps σ) (m : Model σ)
    (train_seqs : List (List Char)) (train_labels : List ℕ) : Model σ × ℚ :=
  let perm := (rop.permutation m.rng train_seqs.length).1
  let rng1 := (rop.permutation m.rng train_seqs.length).2
  let seqs_shuf := perm.map (fun i => train_seqs.getD i [])
  let labels_shuf := perm.map (fun i => train_labels.getD i 0)
  let m1 := { m with rng := rng1 }
  let fin := (List.range ((train_seqs.length + 31) / 32)).foldl (fun acc bi =>
      let bseqs := (seqs_shuf.drop (32 * bi)).take 32
      let blabels := (labels_shuf.drop (32 * bi)).take 32
      let r := Model.finetune_step ops acc.1 bseqs blabels
      (r.1, acc.2 + r.2 * (blabels.length : ℚ))) (m1, (0 : ℚ))
  (fin.1, fin.2 / (train_seqs.length : ℚ))

/-- The epoch loop of finetune with early stopping, fuel = remaining epoch
budget; mirrors the source: train, then (when a validation set is present)
compute validation accuracy, update best/patience, and break as soon as the
patience counter reaches the patience limit. -/
def finetuneLoop {σ : Type} (ops : FloatOps) (rop : RngOps σ)
    (train_seqs : List (List Char)) (train_labels : List ℕ)
    (val_seqs : List (List Char)) (val_labels : List ℕ) (min_delta : ℚ) (patience : ℕ) :
    ℕ → ℕ → Model σ → ℚ → ℕ → ℕ → List ℚ → List ℚ → Model σ × FinetuneResult
  | 0, _, m, best, bestEpoch, _, histT, histV =>
    (m, { best_val_acc := best, best_epoch := bestEpoch,
          train_loss := histT, val_acc := histV })
  | fuel + 1, epoch, m, best, bestEpoch, counter, histT, histV =>
    let tr := Model.finetuneTrainEpoch ops rop m train_seqs train_labels
    let histT2 := histT ++ [tr.2]
    if val_seqs ≠ [] then
      let acc := Model.valAccuracy ops tr.1 val_seqs val_labels
      let histV2 := histV ++ [acc]
      let best2 := if best + min_delta < acc then acc else best
      let bestEpoch2 := if best + min_delta < acc then epoch + 1 else bestEpoch
      let counter2 := if best + min_delta < acc then 0 else counter + 1
      if patience ≤ counter2 then
        (tr.1, { best_val_acc := best2, best_epoch := bestEpoch2,
                 train_loss := histT2, val_acc := histV2 })
      else
        finetuneLoop ops rop train_seqs train_labels val_seqs val_labels min_delta patience
          fuel (epoch + 1) tr.1 best2 bestEpoch2 counter2 histT2 histV2
    else
      finetuneLoop ops rop train_seqs train_labels val_seqs val_labels min_delta patience
        fuel (epoch + 1) tr.1 best bestEpoch counter histT2 histV

/-- finetune: unconditionally re-initialize the classifier (W1, W2 freshly
sampled from the model's random source and scaled; b1, b2 zero) and create
fresh zero-state Adam optimizers, then run the epoch loop and set
is_finetuned. -/
def Model.finetune {σ : Type} (ops : FloatOps) (rop : RngOps σ) (m : Model σ)
    (train_seqs : List (List Char)) (train_labels : List ℕ)
    (val_seqs : List (List Char)) (val_labels : List ℕ) : Model σ × FinetuneResult :=
  let config := m.config
  let draw1 := rop.randn m.rng config.dim config.mlp_hidden
  let draw2 := rop.randn draw1.2 config.mlp_hidden config.num_classes
  let m0 : Model σ :=
    { m with
      rng := draw2.2,
      W1 := some (matScale (ops.sqrt (2 / (config.dim : ℚ))) draw1.1),
      b1 := some (zeros config.mlp_hidden),
      W2 := some (matScale (ops.sqrt (2 / (config.mlp_hidden : ℚ))) draw2.1),
      b2 := some (zeros config.num_classes),
      opt_W1 := some (AdamOptimizerM.init config.dim config.mlp_hidden config.finetune_lr),
      opt_b1 := some (AdamOptimizer.init config.mlp_hidden config.finetune_lr),
      opt_W2 := some (AdamOptimizerM.init config.mlp_hidden config.num_classes
        config.finetune_lr),
      opt_b2 := some (AdamOptimizer.init config.num_classes config.finetune_lr) }
  let r := finetuneLoop ops rop train_seqs train_labels val_seqs val_labels
    config.min_delta config.patience config.finetune_epochs 0 m0 0 0 0 [] []
  ({ r.1 with is_finetuned := true }, r.2)

/-- One step of the patience recurrence of C5: reset the counter on an
improvement by more than min_delta over the running best, else increment. -/
def patienceStep (min_delta : ℚ) (st : ℚ × ℕ) (acc : ℚ) : ℚ × ℕ :=
  if st.1 + min_delta < acc then (acc, 0) else (st.1, st.2 + 1)

/-- Patience counter after simulating the recurrence over a recorded
validation-accuracy trace from a given (best, counter) state. -/
def counterAfter (min_delta : ℚ) (st : ℚ × ℕ) (accs : List ℚ) : ℕ :=
  (accs.foldl (patienceStep min_delta) st).2

theorem finetuneLoop_val_spec {σ : Type} (ops : FloatOps) (rop : RngOps σ)
    (train_seqs : List (List Char)) (train_labels : List ℕ)
    (val_seqs : List (List Char)) (val_labels : List ℕ) (min_delta : ℚ) (patience : ℕ)
    (hval : val_seqs ≠ []) :
    ∀ (fuel epoch : ℕ) (m : Model σ) (best : ℚ) (bestEpoch counter : ℕ)
      (histT histV : List ℚ),
      ∃ new : List ℚ,
        (finetuneLoop ops rop train_seqs train_labels val_seqs val_labels min_delta patience
            fuel epoch m best bestEpoch counter histT histV).2.val_acc = histV ++ new ∧
        new.length ≤ fuel ∧
        (∀ i : ℕ, i + 1 < new.length →
          counterAfter min_delta (best, counter) (new.take (i + 1)) < patience) ∧
        (new.length < fuel →
          new ≠ [] ∧ patience ≤ counterAfter min_delta (best, counter) new) := by
  intro fuel
  induction fuel with
  | zero =>
    intro epoch m best bestEpoch counter histT histV
    refine ⟨[], by simp [finetuneLoop], by simp, ?_, ?_⟩
    · intro i hi
      simp at hi
    · intro h
      simp at h
  | succ fuel ih =>
    intro epoch m best bestEpoch counter histT histV
    rw [show finetuneLoop ops rop train_seqs train_labels val_seqs val_labels min_delta
        patience (fuel + 1) epoch m best bestEpoch counter histT histV
      = (let tr := Model.finetuneTrainEpoch ops rop m train_seqs train_labels
         let histT2 := histT ++ [tr.2]
         if val_seqs ≠ [] then
           let acc := Model.valAccuracy ops tr.1 val_seqs val_labels
           let histV2 := histV ++ [acc]
           let best2 := if best + min_delta < acc then acc else best
           let bestEpoch2 := if best + min_delta < acc then epoch + 1 else bestEpoch
           let counter2 := if best + min_delta < acc then 0 else counter + 1
           if patience ≤ counter2 then
             (tr.1, { best_val_acc := best2, best_epoch := bestEpoch2,
                      train_loss := histT2, val_acc := histV2 })
           else
             finetuneLoop ops rop train_seqs train_labels val_seqs val_labels min_delta
               patience fuel (epoch + 1) tr.1 best2 bestEpoch2 counter2 histT2 histV2
         else
           finetuneLoop ops rop train_seqs train_labels val_seqs val_labels min_delta
             patience fuel (epoch + 1) tr.1 best bestEpoch counter histT2 histV) from rfl]
    rw [if_pos hval]
    set tr := Model.finetuneTrainEpoch ops rop m train_seqs train_labels
    set acc := Model.valAccuracy ops tr.1 val_seqs val_labels
    by_cases himp : best + min_delta < acc
    · simp only [himp, if_pos]
      by_cases hstop : patience ≤ 0
      · rw [if_pos hstop]
        refine ⟨[acc], rfl, by simp, ?_, ?_⟩
        · intro i hi
          simp at hi
        · intro _
          refine ⟨by simp, ?_⟩
          simpa [counterAfter, patienceStep, himp] using hstop
      · rw [if_neg hstop]
        obtain ⟨new, h1, h2, h3, h4⟩ := ih (epoch + 1) tr.1 acc (epoch + 1) 0
          (histT ++ [tr.2]) (histV ++ [acc])
        refine ⟨acc :: new, by simpa using h1, by simpa using h2, ?_, ?_⟩
        · intro i hi
          match i with
          | 0 =>
            have he : counterAfter min_delta (best, counter) ((acc :: new).take (0 + 1)) = 0 := by
              simp [counterAfter, patienceStep, himp]
            omega
          | i + 1 =>
            have hi2 : i + 1 < new.length := by simpa using hi
            have := h3 i hi2
            simpa [counterAfter, patienceStep, himp] using this
        · intro hlt
          have hlt2 : new.length < fuel := by simpa using hlt
          obtain ⟨hne, hcnt⟩ := h4 hlt2
          refine ⟨by simp, ?_⟩
          simpa [counterAfter, patienceStep, himp] using hcnt
    · simp only [himp, if_neg, if_false]
      by_cases hstop : patience ≤ counter + 1
      · rw [if_pos hstop]
        refine ⟨[acc], rfl, by simp, ?_, ?_⟩
        · intro i hi
          simp at hi
        · intro _
          refine ⟨by simp, ?_⟩
          simpa [counterAfter, patienceStep, himp] using hstop
      · rw [if_neg hstop]
        obtain ⟨new, h1, h2, h3, h4⟩ := ih (epoch + 1) tr.1 best bestEpoch (counter + 1)
          (histT ++ [tr.2]) (histV ++ [acc])
        refine ⟨acc :: new, by simpa using h1, by simpa using h2, ?_, ?_⟩
        · intro i hi
          match i with
          | 0 =>
            have he : counterAfter min_delta (best, counter) ((acc :: new).take (0 + 1))
                = counter + 1 := by
              simp [counterAfter, patienceStep, himp]
            omega
          | i + 1 =>
            have hi2 : i + 1 < new.length := by simpa using hi
            have := h3 i hi2
            simpa [counterAfter, patienceStep, himp] using this
        · intro hlt
          have hlt2 : new.length < fuel := by simpa using hlt
          obtain ⟨hne, hcnt⟩ := h4 hlt2
          refine ⟨by simp, ?_⟩
          simpa [counterAfter, patienceStep, himp] using hcnt

/-- C5 (amended): with a non-empty validation set, the run executes at most
finetune_epochs epochs; simulating the patience recurrence (reset to 0 on
an epoch improving the running best by more than min_delta, incremented
otherwise) over the recorded validation accuracies, the counter stays below
patience after every non-final epoch, and when the run stops before the
epoch budget it is exactly because the counter just reached patience.  In
particular a trace whose last improvement is at epoch 3, with patience = 2
and budget at least 5, stops exactly after epoch 5 — but a trace that never
improves at all stops already after epoch `patience`. -/
theorem c5_early_stopping {σ : Type} (ops : FloatOps) (rop : RngOps σ) (m : Model σ)
    (train_seqs : List (List Char)) (train_labels : List ℕ)
    (val_seqs : List (List Char)) (val_labels : List ℕ)
    (hval : val_seqs ≠ []) :
    (Model.finetune ops rop m train_seqs train_labels val_seqs val_labels).2.val_acc.length
      ≤ m.config.finetune_epochs ∧
    (∀ i : ℕ, i + 1 < (Model.finetune ops rop m train_seqs train_labels val_seqs
        val_labels).2.val_acc.length →
      counterAfter m.config.min_delta (0, 0)
          (((Model.finetune ops rop m train_seqs train_labels val_seqs
            val_labels).2.val_acc).take (i + 1))
        < m.config.patience) ∧
    ((Model.finetune ops rop m train_seqs train_labels val_seqs val_labels).2.val_acc.length
        < m.config.finetune_epochs →
      (Model.finetune ops rop m train_seqs train_labels val_seqs val_labels).2.val_acc ≠ [] ∧
      m.config.patience ≤ counterAfter m.config.min_delta (0, 0)
        (Model.finetune ops rop m train_seqs train_labels val_seqs val_labels).2.val_acc) := by
  obtain ⟨new, h1, h2, h3, h4⟩ := finetuneLoop_val_spec ops rop train_seqs train_labels
    val_seqs val_labels m.config.min_delta m.config.patience hval
    m.config.finetune_epochs 0 _ 0 0 0 [] []
  have hv : (Model.finetune ops rop m train_seqs train_labels val_seqs
      val_labels).2.val_acc = new := by
    show (finetuneLoop ops rop train_seqs train_labels val_seqs val_labels
        m.config.min_delta m.config.patience m.config.finetune_epochs 0 _ 0 0 0
        [] []).2.val_acc = new
    simpa using h1
  rw [hv]
  exact ⟨h2, h3, fun h => ⟨(h4 h).1, (h4 h).2⟩⟩

/-- Trivial float operations (constant sqrt and exp, zero log) used by the
finetune counterexamples; they keep every intermediate value small. -/
def fops1 : FloatOps := { sqrt := fun _ => 1, exp := fun _ => 1, log := fun _ => 0 }

/-- Model for the C5 counterexample: patience 2, min_delta 2 (so no epoch
can improve by more than min_delta), budget 50. -/
def mC5 : Model Unit :=
  { config :=
      { dim := 1,
        kmer_length := 1,
        num_classes := 2,
        mlp_hidden := 1,
        patience := 2,
        min_delta := 2,
        finetune_epochs := 50 },
    rng := (),
    embeddings := [[0], [0], [0], [0]],
    W1 := none, b1 := none, W2 := none, b2 := none,
    opt_W1 := none, opt_b1 := none, opt_W2 := none, opt_b2 := none,
    embed_m := zerosM 4 1, embed_v := zerosM 4 1, embed_t := 0,
    is_pretrained := false, is_finetuned := false }

set_option maxRecDepth 100000 in
/-- C5 counterexample: a run whose validation accuracy never improves by
min_delta at any epoch (in particular not after epoch 3) with patience = 2
stops after epoch 2, not epoch 5. -/
theorem c5_early_stopping_counterexample :
    (Model.finetune fops1 rngId mC5 [[]] [0] [[]] [0]).2.val_acc = [1, 1] ∧
    (Model.finetune fops1 rngId mC5 [[]] [0] [[]] [0]).2.val_acc.length ≠ 5 := by
  constructor
  · with_unfolding_all decide
  · with_unfolding_all decide

theorem c5_early_stopping_witness :
    (([[]] : List (List Char)) ≠ [] ∧ True) ∧
    ((Model.finetune fops1 rngId mC5 [[]] [0] [[]] [0]).2.val_acc.length
      ≤ mC5.config.finetune_epochs ∧
    (∀ i : ℕ, i + 1 < (Model.finetune fops1 rngId mC5 [[]] [0] [[]] [0]).2.val_acc.length →
      counterAfter mC5.config.min_delta (0, 0)
          (((Model.finetune fops1 rngId mC5 [[]] [0] [[]] [0]).2.val_acc).take (i + 1))
        < mC5.config.patience) ∧
    ((Model.finetune fops1 rngId mC5 [[]] [0] [[]] [0]).2.val_acc.length
        < mC5.config.finetune_epochs →
      (Model.finetune fops1 rngId mC5 [[]] [0] [[]] [0]).2.val_acc ≠ [] ∧
      mC5.config.patience ≤ counterAfter mC5.config.min_delta (0, 0)
        (Model.finetune fops1 rngId mC5 [[]] [0] [[]] [0]).2.val_acc)) :=
  ⟨⟨by decide, trivial⟩,
    c5_early_stopping fops1 rngId mC5 [[]] [0] [[]] [0] (by decide)⟩

/-- The classifier logits of a batch, as predict and predict_proba compute
them: relu(encodings W1 + b1) W2 + b2 over the normalized encoded batch. -/
def Model.logitsOf {σ : Type} (ops : FloatOps) (m : Model σ)
    (sequences : List (List Char)) : List (List ℚ) :=
  let encodings := m.encode_batch ops sequences true
  let h1 := reluM (addRowVec (matMul encodings (m.W1.getD [])) (m.b1.getD []))
  addRowVec (matMul h1 (m.W2.getD [])) (m.b2.getD [])

/-- C6: predict and predict_proba fail with NotFitted exactly when the
classifier weights were never initialized (W1 is None); with a classifier
present, predict returns (without failing) the per-row argmax of the
classifier logits over the encoded batch and predict_proba their row-wise
softmax. -/
theorem c6_predict_not_fitted {σ : Type} (ops : FloatOps) (m : Model σ)
    (sequences : List (List Char)) :
    ((Model.predict ops m sequences).1 = Except.error PredictError.notFitted ↔ m.W1 = none) ∧
    ((Model.predict_proba ops m sequences).1 = Except.error PredictError.notFitted
      ↔ m.W1 = none) ∧
    (∀ w1, m.W1 = some w1 →
      (Model.predict ops m sequences).1
          = Except.ok ((Model.logitsOf ops m sequences).map argmax) ∧
      (Model.predict_proba ops m sequences).1
          = Except.ok ((Model.logitsOf ops m sequences).map (fun r => softmaxRow ops r))) := by
  cases h : m.W1 with
  | none =>
    refine ⟨by simp [Model.predict, h], by simp [Model.predict_proba, h], ?_⟩
    intro w1 hw
    exact Option.noConfusion hw
  | some w1 =>
    refine ⟨by simp [Model.predict, h], by simp [Model.predict_proba, h], ?_⟩
    intro w1' hw
    injection hw with hw2
    subst hw2
    constructor
    · simp [Model.predict, h, Model.logitsOf]
    · simp [Model.predict_proba, h, Model.logitsOf]

/-- A fitted model for the C6 witness. -/
def mC6 : Model Unit :=
  { config := { dim := 2, kmer_length := 1, num_classes := 2, mlp_hidden := 1 },
    rng := (),
    embeddings := [[1, 0], [0, 1], [1, 1], [2, 0]],
    W1 := some [[1], [1]], b1 := some [0],
    W2 := some [[1, 0]], b2 := some [0, 0],
    opt_W1 := none, opt_b1 := none, opt_W2 := none, opt_b2 := none,
    embed_m := zerosM 4 2, embed_v := zerosM 4 2, embed_t := 0,
    is_pretrained := false, is_finetuned := true }

theorem c6_predict_not_fitted_witness :
    (mC6.W1 = some [[1], [1]]) ∧
    ((Model.predict fopsRat mC6 [[Char.ofNat 65]]).1
        = Except.ok ((Model.logitsOf fopsRat mC6 [[Char.ofNat 65]]).map argmax) ∧
      (Model.predict_proba fopsRat mC6 [[Char.ofNat 65]]).1
        = Except.ok ((Model.logitsOf fopsRat mC6 [[Char.ofNat 65]]).map
            (fun r => softmaxRow fopsRat r))) ∧
    ((Model.predict fopsRat mC6 [[Char.ofNat 65]]).1.toOption = some [0]) :=
  ⟨rfl,
    (c6_predict_not_fitted fopsRat mC6 [[Char.ofNat 65]]).2.2 [[1], [1]] rfl,
    by with_unfolding_all decide⟩

/-- C10 (amended): finetune ignores any previously learned classifier
(two models differing only in classifier weights and optimizers produce
identical results), re-initializes W1 and W2 from fresh draws of the
model's random source scaled by sqrt(2/fan_in), resets b1 and b2 to zero
vectors, creates brand-new zero-state Adam optimizers, and carries the
embedding table, embed_m, embed_v and embed_t over unchanged (visible
directly when the epoch budget is 0). -/
theorem c10_finetune_reinit {σ : Type} (ops : FloatOps) (rop : RngOps σ) (m1 m2 : Model σ)
    (train_seqs : List (List Char)) (train_labels : List ℕ)
    (val_seqs : List (List Char)) (val_labels : List ℕ)
    (hcfg : m1.config = m2.config) (hrng : m1.rng = m2.rng)
    (hemb : m1.embeddings = m2.embeddings) (hm : m1.embed_m = m2.embed_m)
    (hv : m1.embed_v = m2.embed_v) (ht : m1.embed_t = m2.embed_t)
    (hip : m1.is_pretrained = m2.is_pretrained) (hif : m1.is_finetuned = m2.is_finetuned) :
    Model.finetune ops rop m1 train_seqs train_labels val_seqs val_labels
      = Model.finetune ops rop m2 train_seqs train_labels val_seqs val_labels ∧
    (m1.config.finetune_epochs = 0 →
      (Model.finetune ops rop m1 train_seqs train_labels val_seqs val_labels).1
        = { m1 with
            rng := (rop.randn (rop.randn m1.rng m1.config.dim m1.config.mlp_hidden).2
              m1.config.mlp_hidden m1.config.num_classes).2,
            W1 := some (matScale (ops.sqrt (2 / (m1.config.dim : ℚ)))
              (rop.randn m1.rng m1.config.dim m1.config.mlp_hidden).1),
            b1 := some (zeros m1.config.mlp_hidden),
            W2 := some (matScale (ops.sqrt (2 / (m1.config.mlp_hidden : ℚ)))
              (rop.randn (rop.randn m1.rng m1.config.dim m1.config.mlp_hidden).2
                m1.config.mlp_hidden m1.config.num_classes).1),
            b2 := some (zeros m1.config.num_classes),
            opt_W1 := some (AdamOptimizerM.init m1.config.dim m1.config.mlp_hidden
              m1.config.finetune_lr),
            opt_b1 := some (AdamOptimizer.init m1.config.mlp_hidden m1.config.finetune_lr),
            opt_W2 := some (AdamOptimizerM.init m1.config.mlp_hidden m1.config.num_classes
              m1.config.finetune_lr),
            opt_b2 := some (AdamOptimizer.init m1.config.num_classes m1.config.finetune_lr),
            is_finetuned := true }) := by
  constructor
  · cases m1
    cases m2
    dsimp only at hcfg hrng hemb hm hv ht hip hif
    subst hcfg hrng hemb hm hv ht hip hif
    rfl
  · intro h
    simp only [Model.finetune, h, finetuneLoop]

/-- Random operations emitting only the value 1 from randn, for the C10
counterexample. -/
def rngOnes : RngOps Unit :=
  { permutation := fun s n => (List.range n, s),
    shuffle := fun s l => (l, s),
    random := fun s => (1, s),
    choice := fun s => (Char.ofNat 65, s),
    randn := fun s r c => (List.replicate r (List.replicate c 1), s) }

/-- Model for the C10 counterexample and witness: zero epoch budget, a
nonzero embed_t to exhibit the carry-over. -/
def mC10 : Model Unit :=
  { config :=
      { dim := 1,
        kmer_length := 1,
        num_classes := 2,
        mlp_hidden := 1,
        finetune_epochs := 0 },
    rng := (),
    embeddings := [[0], [0], [0], [0]],
    W1 := none, b1 := none, W2 := none, b2 := none,
    opt_W1 := none, opt_b1 := none, opt_W2 := none, opt_b2 := none,
    embed_m := zerosM 4 1, embed_v := zerosM 4 1, embed_t := 3,
    is_pretrained := true, is_finetuned := false }

/-- Same model with a previously learned classifier, for the witness. -/
def mC10b : Model Unit :=
  { mC10 with
    W1 := some [[5]],
    b1 := some [7],
    W2 := some [[2, 3]],
    b2 := some [4, 4],
    opt_b1 := some (AdamOptimizer.init 1 1) }

set_option maxRecDepth 100000 in
/-- C10 counterexample: with a random source that only ever emits the value
1, finetune still sets b1 to the zero vector — so b1 is not freshly sampled
from the model's random source (while W1 is: it equals the scaled draw of
ones).  embed_t is carried over unchanged. -/
theorem c10_finetune_reinit_counterexample :
    (Model.finetune fops1 rngOnes mC10 [] [] [] []).1.b1 = some [0] ∧
    (rngOnes.randn () 1 1).1 = [[1]] ∧
    ((0 : ℚ) ≠ 1) ∧
    (Model.finetune fops1 rngOnes mC10 [] [] [] []).1.W1 = some [[1]] ∧
    (Model.finetune fops1 rngOnes mC10 [] [] [] []).1.embed_t = 3 := by
  refine ⟨?_, by decide, by decide, ?_, ?_⟩
  · with_unfolding_all decide
  · with_unfolding_all decide
  · with_unfolding_all decide

theorem c10_finetune_reinit_witness :
    (mC10.config = mC10b.config ∧ mC10.rng = mC10b.rng ∧
      mC10.embeddings = mC10b.embeddings ∧ mC10.embed_m = mC10b.embed_m ∧
      mC10.embed_v = mC10b.embed_v ∧ mC10.embed_t = mC10b.embed_t ∧
      mC10.is_pretrained = mC10b.is_pretrained ∧
      mC10.is_finetuned = mC10b.is_finetuned ∧ mC10.config.finetune_epochs = 0) ∧
    Model.finetune fops1 rngOnes mC10 [] [] [] []
      = Model.finetune fops1 rngOnes mC10b [] [] [] [] ∧
    (Model.finetune fops1 rngOnes mC10 [] [] [] []).1
      = { mC10 with
          rng := (rngOnes.randn (rngOnes.randn mC10.rng mC10.config.dim
            mC10.config.mlp_hidden).2 mC10.config.mlp_hidden mC10.config.num_classes).2,
          W1 := some (matScale (fops1.sqrt (2 / (mC10.config.dim : ℚ)))
            (rngOnes.randn mC10.rng mC10.config.dim mC10.config.mlp_hidden).1),
          b1 := some (zeros mC10.config.mlp_hidden),
          W2 := some (matScale (fops1.sqrt (2 / (mC10.config.mlp_hidden : ℚ)))
            (rngOnes.randn (rngOnes.randn mC10.rng mC10.config.dim
              mC10.config.mlp_hidden).2 mC10.config.mlp_hidden mC10.config.num_classes).1),
          b2 := some (zeros mC10.config.num_classes),
          opt_W1 := some (AdamOptimizerM.init mC10.config.dim mC10.config.mlp_hidden
            mC10.config.finetune_lr),
          opt_b1 := some (AdamOptimizer.init mC10.config.mlp_hidden
            mC10.config.finetune_lr),
          opt_W2 := some (AdamOptimizerM.init mC10.config.mlp_hidden
            mC10.config.num_classes mC10.config.finetune_lr),
          opt_b2 := some (AdamOptimizer.init mC10.config.num_classes
            mC10.config.finetune_lr),
          is_finetuned := true } := by
  have h := c10_finetune_reinit fops1 rngOnes mC10 mC10b [] [] [] []
    rfl rfl rfl rfl rfl rfl rfl rfl
  exact ⟨⟨rfl, rfl, rfl, rfl, rfl, rfl, rfl, rfl, rfl⟩, h.1, h.2 rfl⟩

/-- The per-anchor InfoNCE loss exactly as _contrastive_step computes it
(similarities divided by the temperature and clipped to [-20, 20] before
exponentiation; 1e-10 added to the denominator). -/
def anchorLoss (ops : FloatOps) (temperature : ℚ) (anchor positive : List ℚ)
    (negatives : List (List ℚ)) : ℚ :=
  let sim_pos := cosine_similarity ops anchor positive / temperature
  let sim_negs := negatives.map (fun neg => cosine_similarity ops anchor neg / temperature)
  let exp_pos := ops.exp (clip sim_pos (-20) 20)
  let exp_negs := sim_negs.map (fun x => ops.exp (clip x (-20) 20))
  let denom := exp_pos + exp_negs.sum
  let loss := -(ops.log (exp_pos / (denom + eps10)))
  loss

/-- The loss computed inside the batch loop is anchorLoss at the sampled
negatives. -/
theorem sample_loss_eq_anchorLoss {σ : Type} (c : BatchCtx σ) (i : ℕ) (rs : σ) :
    (c.sample i rs).1.1
      = anchorLoss c.ops c.temperature (c.anchors.getD i []) (c.positives.getD i [])
          ((((c.rop.shuffle rs ((List.range c.batch_size).filter (fun j => j ≠ i))).1).take
            c.num_negatives).map (fun j => c.anchors.getD j [])) := rfl

theorem clip_le (x lo hi : ℚ) (h : lo ≤ hi) : lo ≤ clip x lo hi ∧ clip x lo hi ≤ hi := by
  unfold clip
  split_ifs with h1 h2
  · exact ⟨le_refl _, h⟩
  · exact ⟨h, le_refl _⟩
  · exact ⟨by linarith, by linarith⟩

theorem clip_eq_self (x lo hi : ℚ) (h1 : lo ≤ x) (h2 : x ≤ hi) : clip x lo hi = x := by
  unfold clip
  rw [if_neg (by linarith), if_neg (by linarith)]

theorem infoNCE_nonneg (ops : FloatOps)
    (hexp : ∀ x : ℚ, -20 ≤ x → x ≤ 20 → 0 < ops.exp x)
    (hlognp : ∀ x : ℚ, 0 < x → x < 1 → ops.log x ≤ 0)
    (s : ℚ) (sims : List ℚ) :
    0 ≤ -(ops.log (ops.exp (clip s (-20) 20) /
      ((ops.exp (clip s (-20) 20)
        + (sims.map (fun x => ops.exp (clip x (-20) 20))).sum) + eps10))) := by
  have hcb := clip_le s (-20) 20 (by norm_num)
  have hEpos : 0 < ops.exp (clip s (-20) 20) := hexp _ hcb.1 hcb.2
  have hSpos : 0 ≤ (sims.map (fun x => ops.exp (clip x (-20) 20))).sum := by
    apply List.sum_nonneg
    intro x hx
    rcases List.mem_map.mp hx with ⟨y, _, rfl⟩
    have hcb2 := clip_le y (-20) 20 (by norm_num)
    exact le_of_lt (hexp _ hcb2.1 hcb2.2)
  have heps : (0 : ℚ) < eps10 := by norm_num [eps10]
  have hdenpos : 0 < (ops.exp (clip s (-20) 20)
      + (sims.map (fun x => ops.exp (clip x (-20) 20))).sum) + eps10 := by linarith
  have hratio1 : 0 < ops.exp (clip s (-20) 20) /
      ((ops.exp (clip s (-20) 20)
        + (sims.map (fun x => ops.exp (clip x (-20) 20))).sum) + eps10) :=
    div_pos hEpos hdenpos
  have hratio2 : ops.exp (clip s (-20) 20) /
      ((ops.exp (clip s (-20) 20)
        + (sims.map (fun x => ops.exp (clip x (-20) 20))).sum) + eps10) < 1 := by
    rw [div_lt_one hdenpos]
    linarith
  have := hlognp _ hratio1 hratio2
  linarith

theorem infoNCE_strict (ops : FloatOps)
    (hexp : ∀ x : ℚ, -20 ≤ x → x ≤ 20 → 0 < ops.exp x)
    (hexpm : ∀ x y : ℚ, -20 ≤ x → y ≤ 20 → x < y → ops.exp x < ops.exp y)
    (hlogm : ∀ x y : ℚ, 0 < x → x < y → ops.log x < ops.log y)
    (s1 s2 : ℚ) (sims : List ℚ)
    (hb1 : -20 ≤ s1) (hb2 : s1 ≤ 20) (hb3 : -20 ≤ s2) (hb4 : s2 ≤ 20) (hlt : s1 < s2) :
    -(ops.log (ops.exp (clip s2 (-20) 20) /
      ((ops.exp (clip s2 (-20) 20)
        + (sims.map (fun x => ops.exp (clip x (-20) 20))).sum) + eps10)))
    < -(ops.log (ops.exp (clip s1 (-20) 20) /
      ((ops.exp (clip s1 (-20) 20)
        + (sims.map (fun x => ops.exp (clip x (-20) 20))).sum) + eps10))) := by
  rw [clip_eq_self s1 (-20) 20 hb1 hb2, clip_eq_self s2 (-20) 20 hb3 hb4]
  have hE1 : 0 < ops.exp s1 := hexp _ hb1 hb2
  have hE2 : 0 < ops.exp s2 := hexp _ hb3 hb4
  have hE12 : ops.exp s1 < ops.exp s2 := hexpm _ _ hb1 hb4 hlt
  have hSpos : 0 ≤ (sims.map (fun x => ops.exp (clip x (-20) 20))).sum := by
    apply List.sum_nonneg
    intro x hx
    rcases List.mem_map.mp hx with ⟨y, _, rfl⟩
    have hcb2 := clip_le y (-20) 20 (by norm_num)
    exact le_of_lt (hexp _ hcb2.1 hcb2.2)
  have heps : (0 : ℚ) < eps10 := by norm_num [eps10]
  set S := (sims.map (fun x => ops.exp (clip x (-20) 20))).sum
  have hd1 : 0 < (ops.exp s1 + S) + eps10 := by linarith
  have hd2 : 0 < (ops.exp s2 + S) + eps10 := by linarith
  have hr1pos : 0 < ops.exp s1 / ((ops.exp s1 + S) + eps10) := div_pos hE1 hd1
  have hrlt : ops.exp s1 / ((ops.exp s1 + S) + eps10)
      < ops.exp s2 / ((ops.exp s2 + S) + eps10) := by
    rw [div_lt_div_iff hd1 hd2]
    nlinarith
  have := hlogm _ _ hr1pos hrlt
  linarith

/-- C9 (amended): the per-anchor InfoNCE loss (with similarities clipped to
[-20, 20] before exponentiation) is always nonnegative whenever exp is
positive on the clip range and log is nonpositive on (0, 1); holding the
negatives fixed, it strictly decreases as the anchor-positive similarity
increases as long as the scaled similarities stay inside the clip range
(strictness fails once both similarities saturate the clip). -/
theorem c9_loss_properties (ops : FloatOps) (temperature : ℚ)
    (a p p2 : List ℚ) (negs : List (List ℚ))
    (hexp : ∀ x : ℚ, -20 ≤ x → x ≤ 20 → 0 < ops.exp x)
    (hlognp : ∀ x : ℚ, 0 < x → x < 1 → ops.log x ≤ 0)
    (hexpm : ∀ x y : ℚ, -20 ≤ x → y ≤ 20 → x < y → ops.exp x < ops.exp y)
    (hlogm : ∀ x y : ℚ, 0 < x → x < y → ops.log x < ops.log y) :
    0 ≤ anchorLoss ops temperature a p negs ∧
    (-20 ≤ cosine_similarity ops a p / temperature →
     cosine_similarity ops a p / temperature ≤ 20 →
     -20 ≤ cosine_similarity ops a p2 / temperature →
     cosine_similarity ops a p2 / temperature ≤ 20 →
     cosine_similarity ops a p / temperature < cosine_similarity ops a p2 / temperature →
     anchorLoss ops temperature a p2 negs < anchorLoss ops temperature a p negs) := by
  constructor
  · exact infoNCE_nonneg ops hexp hlognp (cosine_similarity ops a p / temperature)
      (negs.map (fun neg => cosine_similarity ops a neg / temperature))
  · intro hb1 hb2 hb3 hb4 hlt
    exact infoNCE_strict ops hexp hexpm hlogm
      (cosine_similarity ops a p / temperature)
      (cosine_similarity ops a p2 / temperature)
      (negs.map (fun neg => cosine_similarity ops a neg / temperature))
      hb1 hb2 hb3 hb4 hlt

/-- Float operations for the C9 counterexample and witness: exact rational
square root, an exp that is positive and strictly increasing on the clip
range, a strictly increasing log that is nonpositive below 1. -/
def fopsC9 : FloatOps :=
  { sqrt := ratSqrt, exp := fun x => 3 + x / 8, log := fun x => x - 1 }

/-- C9 counterexample: with temperature 1/40 the scaled similarities 40 and
24 both clip to 20, so two anchor-positive pairs with strictly different
cosine similarity produce exactly the same loss — the loss does not
strictly decrease in the similarity once the clip saturates. -/
theorem c9_loss_counterexample :
    cosine_similarity fopsC9 [1, 0] [3 / 5, 4 / 5]
      < cosine_similarity fopsC9 [1, 0] [1, 0] ∧
    anchorLoss fopsC9 (1 / 40) [1, 0] [3 / 5, 4 / 5] [[0, 1]]
      = anchorLoss fopsC9 (1 / 40) [1, 0] [1, 0] [[0, 1]] := by
  have hr1 : ratSqrt 1 = 1 := by
    have h := ratSqrt_mul_self (1 : ℚ)
    simpa using h
  have hs10 : sumSq [(1 : ℚ), 0] = 1 := by simp [sumSq]
  have hs35 : sumSq [(3 : ℚ) / 5, 4 / 5] = 1 := by norm_num [sumSq]
  have hs01 : sumSq [(0 : ℚ), 1] = 1 := by simp [sumSq]
  have hcos1 : cosine_similarity fopsC9 [1, 0] [3 / 5, 4 / 5] = 3 / 5 := by
    simp only [cosine_similarity, fopsC9]
    rw [hs10, hs35, hr1]
    norm_num [dotProd, vecMul]
  have hcos2 : cosine_similarity fopsC9 [1, 0] [1, 0] = 1 := by
    simp only [cosine_similarity, fopsC9]
    rw [hs10, hr1]
    norm_num [dotProd, vecMul]
  have hcosn : cosine_similarity fopsC9 [1, 0] [0, 1] = 0 := by
    simp only [cosine_similarity, fopsC9]
    rw [hs10, hs01, hr1]
    norm_num [dotProd, vecMul]
  constructor
  · rw [hcos1, hcos2]
    norm_num
  · simp only [anchorLoss, List.map_cons, List.map_nil]
    rw [hcos1, hcos2, hcosn]
    norm_num [fopsC9, clip, eps10]

theorem c9_loss_properties_witness :
    ((∀ x : ℚ, -20 ≤ x → x ≤ 20 → 0 < fopsC9.exp x) ∧
     (∀ x : ℚ, 0 < x → x < 1 → fopsC9.log x ≤ 0) ∧
     (∀ x y : ℚ, -20 ≤ x → y ≤ 20 → x < y → fopsC9.exp x < fopsC9.exp y) ∧
     (∀ x y : ℚ, 0 < x → x < y → fopsC9.log x < fopsC9.log y)) ∧
    0 ≤ anchorLoss fopsC9 1 [1, 0] [0, 1] [[1, 0]] ∧
    anchorLoss fopsC9 1 [1, 0] [1, 0] [[1, 0]]
      < anchorLoss fopsC9 1 [1, 0] [0, 1] [[1, 0]] := by
  have e1 : ∀ x : ℚ, -20 ≤ x → x ≤ 20 → 0 < fopsC9.exp x := by
    intro x h1 h2
    show (0 : ℚ) < 3 + x / 8
    linarith
  have e2 : ∀ x : ℚ, 0 < x → x < 1 → fopsC9.log x ≤ 0 := by
    intro x h1 h2
    show x - 1 ≤ 0
    linarith
  have e3 : ∀ x y : ℚ, -20 ≤ x → y ≤ 20 → x < y → fopsC9.exp x < fopsC9.exp y := by
    intro x y h1 h2 h3
    show 3 + x / 8 < 3 + y / 8
    linarith
  have e4 : ∀ x y : ℚ, 0 < x → x < y → fopsC9.log x < fopsC9.log y := by
    intro x y h1 h2
    show x - 1 < y - 1
    linarith
  have hr1 : ratSqrt 1 = 1 := by
    have h := ratSqrt_mul_self (1 : ℚ)
    simpa using h
  have hs10 : sumSq [(1 : ℚ), 0] = 1 := by simp [sumSq]
  have hs01 : sumSq [(0 : ℚ), 1] = 1 := by simp [sumSq]
  have hcosp : cosine_similarity fopsC9 [1, 0] [0, 1] = 0 := by
    simp only [cosine_similarity, fopsC9]
    rw [hs10, hs01, hr1]
    norm_num [dotProd, vecMul]
  have hcosq : cosine_similarity fopsC9 [1, 0] [1, 0] = 1 := by
    simp only [cosine_similarity, fopsC9]
    rw [hs10, hr1]
    norm_num [dotProd, vecMul]
  have h := c9_loss_properties fopsC9 1 [1, 0] [0, 1] [1, 0] [[1, 0]] e1 e2 e3 e4
  refine ⟨⟨e1, e2, e3, e4⟩, h.1, ?_⟩
  refine h.2 ?_ ?_ ?_ ?_ ?_
  · rw [hcosp]; norm_num
  · rw [hcosp]; norm_num
  · rw [hcosq]; norm_num
  · rw [hcosq]; norm_num
  · rw [hcosp, hcosq]; norm_num

end HybridHDC
